import Mathlib

/-!
Verification of the image and map I/O routines of AlignTK (`imio.c`).

Files are modelled as lists of bytes (`List Nat`, each entry a value in
`[0, 256)`); the C stdio stream operations (`fgetc`, `fscanf`, `fread`,
`fwrite`, `fseek`) become pure functions over such lists.  Writers return
`Option (List Nat)` — `none` models a C routine returning 0 with an error
message — and readers return `Except e α`.  32-bit quantities stored in
binary (the `float` fields of a `MapElement`, the BMP header fields) are
kept as raw 32-bit words serialized in the host's (little-endian) byte
order, so that bit-exactness of I/O round trips can be stated without
modelling IEEE arithmetic, which none of these routines performs.
-/

set_option autoImplicit false

namespace AlignTK

/-- C `isspace` on a byte: space, tab, newline, vertical tab, form feed, CR. -/
def isWS (b : Nat) : Bool :=
  b == 32 || b == 9 || b == 10 || b == 11 || b == 12 || b == 13

/-- ASCII decimal digit test. -/
def isDigit (b : Nat) : Bool :=
  48 ≤ b && b ≤ 57

/-- C `tolower` on an ASCII byte. -/
def lowerByte (b : Nat) : Nat :=
  if 65 ≤ b ∧ b ≤ 90 then b + 32 else b

/-- Equality of byte strings up to ASCII case, as `strcasecmp` computes it. -/
def eqCI (a b : List Nat) : Bool :=
  a.map lowerByte == b.map lowerByte

/-- Does `name` end in `suffix`, compared case-insensitively?  This models the
idiom `strcasecmp(&filename[len-k], suffix) == 0` used throughout `imio.c`. -/
def suffixCI (name suffix : List Nat) : Bool :=
  decide (suffix.length ≤ name.length) &&
    eqCI (name.drop (name.length - suffix.length)) suffix

/-- Little-endian list of ASCII decimal digits of `n` (empty for `0`). -/
def decLE (n : Nat) : List Nat :=
  if h : n = 0 then [] else (n % 10 + 48) :: decLE (n / 10)
termination_by n
decreasing_by exact Nat.div_lt_self (Nat.pos_of_ne_zero h) (by norm_num)

/-- ASCII decimal rendering of a natural number, as `printf "%d"` emits it. -/
def natDec (n : Nat) : List Nat :=
  if n = 0 then [48] else (decLE n).reverse

/-- ASCII decimal rendering of an integer, as `printf "%d"` emits it
(a leading `'-'` for negative values). -/
def intDec (i : Int) : List Nat :=
  if i < 0 then 45 :: natDec i.natAbs else natDec i.toNat

/-- Skip C whitespace, as `fscanf` does before a conversion. -/
def skipWS : List Nat → List Nat
  | [] => []
  | b :: t => if isWS b then skipWS t else b :: t

/-- Consume a maximal run of decimal digits, accumulating their value onto
`acc`; the terminating byte is left in the stream (`fscanf` pushes it back). -/
def digitRun (acc : Nat) : List Nat → Nat × List Nat
  | [] => (acc, [])
  | b :: t => if isDigit b then digitRun (10 * acc + (b - 48)) t else (acc, b :: t)

/-- The value a digit run folds to. -/
def foldDigits (acc : Nat) (ds : List Nat) : Nat :=
  ds.foldl (fun a d => 10 * a + (d - 48)) acc

/-- One `%d` conversion of `fscanf`: skip whitespace, an optional sign, then at
least one digit; the first unconsumed byte stays in the stream. -/
def scanInt (s : List Nat) : Option (Int × List Nat) :=
  match skipWS s with
  | [] => none
  | b :: t =>
    if b = 45 then
      match t with
      | [] => none
      | d :: _ =>
        if isDigit d then
          let p := digitRun 0 t
          some (-(p.1 : Int), p.2)
        else none
    else if b = 43 then
      match t with
      | [] => none
      | d :: _ =>
        if isDigit d then
          let p := digitRun 0 t
          some ((p.1 : Int), p.2)
        else none
    else if isDigit b then
      let p := digitRun 0 (b :: t)
      some ((p.1 : Int), p.2)
    else none

/-- Consume a maximal (possibly empty) run of non-whitespace bytes. -/
def takeNonWS : List Nat → List Nat × List Nat
  | [] => ([], [])
  | b :: t =>
    if isWS b then ([], b :: t)
    else (b :: (takeNonWS t).1, (takeNonWS t).2)

/-- One `%s` conversion of `fscanf`: skip whitespace, then a nonempty maximal
run of non-whitespace bytes. -/
def scanStr (s : List Nat) : Option (List Nat × List Nat) :=
  let p := takeNonWS (skipWS s)
  match p with
  | ([], _) => none
  | (w, r) => some (w, r)

/-- Value of a little-endian byte list. -/
def leVal : List Nat → Nat
  | [] => 0
  | b :: t => b + 256 * leVal t

/-- The four little-endian bytes of a 32-bit word. -/
def le32 (n : Nat) : List Nat :=
  [n % 256, n / 256 % 256, n / 65536 % 256, n / 16777216 % 256]

/-- Read a `k`-byte little-endian field, as `fread(&field, k, 1, f)` does;
fails (fread returns 0, not 1) when fewer than `k` bytes remain. -/
def rdLE (k : Nat) (s : List Nat) : Option (Nat × List Nat) :=
  if k ≤ s.length then some (leVal (s.take k), s.drop k) else none

/-- Reinterpret a 32-bit word as a signed `int32_t` value. -/
def int32 (n : Nat) : Int :=
  if n < 2147483648 then (n : Int) else (n : Int) - 4294967296

/-- A map vertex `MapElement {float x; float y; float c;}`.  The three floats
are kept as raw 32-bit words: Read/WriteMap only ever copy their bytes, so this
captures exactly the bit-exactness the file format promises. -/
structure MapElement where
  x : Nat
  y : Nat
  c : Nat
deriving DecidableEq

/-- A `MapElement` holds three 32-bit quantities. -/
def MapElement.wf (e : MapElement) : Prop :=
  e.x < 4294967296 ∧ e.y < 4294967296 ∧ e.c < 4294967296

instance (e : MapElement) : Decidable e.wf := by
  unfold MapElement.wf
  infer_instance

/-- The twelve bytes of a `MapElement` as it sits in a map file. -/
def serElem (e : MapElement) : List Nat :=
  le32 e.x ++ le32 e.y ++ le32 e.c

/-- The `MapElement` whose three little-endian fields occupy twelve
consecutive file bytes. -/
def elemOfBytes (s : List Nat) : MapElement :=
  ⟨leVal (s.take 4), leVal ((s.drop 4).take 4), leVal ((s.drop 8).take 4)⟩

/-- Read `n` consecutive `MapElement` records of 12 bytes each, as
`fread(*map, sizeof(MapElement), n, f)` does; fails when fewer than `n`
complete records remain. -/
def decodeElems : Nat → List Nat → Option (List MapElement × List Nat)
  | 0, s => some ([], s)
  | n + 1, s =>
    if 12 ≤ s.length then
      match decodeElems n (s.drop 12) with
      | some (es, r) => some (elemOfBytes s :: es, r)
      | none => none
    else none

/-- The `enum MapCompression` argument of WriteMap; only the uncompressed
method is supported. -/
inductive MapCompression
  | UncompressedMap
  | OtherMapCompression
deriving DecidableEq

/-- Errors of ReadMap, minus the ones about the surrounding OS (fopen and
malloc failures), which a byte-level model cannot exhibit. -/
inductive MapError
  | headerError
  | allocError
  | readError
deriving DecidableEq

/-- The error format strings ReadMap produces (the file name is spliced in for
the %s); each is a single line. -/
def mapErrorMsg : MapError → String
  | .headerError => "Cannot read header of map file %s\n"
  | .allocError => "Could not allocate space for map %s\n"
  | .readError => "Could not read map from file %s\n"

/-- Everything ReadMap returns through its out-parameters. -/
structure MapData where
  level : Int
  mapWidth : Int
  mapHeight : Int
  xMin : Int
  yMin : Int
  imageName : List Nat
  referenceName : List Nat
  elements : List MapElement
deriving DecidableEq

/-- The `fscanf(f, "%d%d%d%d%d%s%s", ...)` of ReadMap (which must reach
count 7) followed by the final `fgetc` that must yield a newline. -/
def parseMapFields (s0 : List Nat) :
    Option (Int × Int × Int × Int × Int × List Nat × List Nat × List Nat) :=
  match scanInt s0 with
  | none => none
  | some (level, s1) =>
    match scanInt s1 with
    | none => none
    | some (mw, s2) =>
      match scanInt s2 with
      | none => none
      | some (mh, s3) =>
        match scanInt s3 with
        | none => none
        | some (xm, s4) =>
          match scanInt s4 with
          | none => none
          | some (ym, s5) =>
            match scanStr s5 with
            | none => none
            | some (img, s6) =>
              match scanStr s6 with
              | none => none
              | some (ref, s7) =>
                match s7 with
                | 10 :: body => some (level, mw, mh, xm, ym, img, ref, body)
                | _ => none

/-- The header acceptance of ReadMap: three `fgetc` checks for `"M1\n"`, then
the scanned fields.  Returns the parsed fields and the remaining bytes. -/
def parseMapHeader (file : List Nat) :
    Option (Int × Int × Int × Int × Int × List Nat × List Nat × List Nat) :=
  match file with
  | 77 :: 49 :: 10 :: s0 => parseMapFields s0
  | _ => none

/-- ReadMap (imio.c) on the bytes of the opened file.  After the header,
`fread` must deliver `mapWidth*mapHeight` complete `MapElement` records.  The
guards follow C's int arithmetic on the *product*: when `mapWidth*mapHeight`
is negative (exactly one negative dimension), the `malloc` size converts to a
huge `size_t` and allocation fails; when the product is nonnegative — which
includes two negative dimensions, e.g. (-1)*(-1) = 1 — malloc succeeds and
ReadMap reads that many records, succeeding (with the negative dimensions
stored through its out-parameters) whenever the file holds them. -/
def readMap (file : List Nat) : Except MapError MapData :=
  match parseMapHeader file with
  | none => .error .headerError
  | some (level, mw, mh, xm, ym, img, ref, body) =>
    if mw * mh < 0 then .error .allocError
    else
      match decodeElems (mw * mh).toNat body with
      | none => .error .readError
      | some (es, _) => .ok ⟨level, mw, mh, xm, ym, img, ref, es⟩

/-- WriteMap (imio.c): rejects any method but UncompressedMap, then writes
`"M1\n"`, the level, `width height`, `xMin yMin`, the two names, and the raw
vertex array in one fwrite of `width*height*sizeof(MapElement)` bytes — an
fwrite of a zero-byte item returns 0, not 1, and so fails.  The C fwrite
copies `width*height` records from the caller's array; the model serializes
the caller's list, whose length the theorems tie to `width*height`.  Returns
the bytes of the written file. -/
def writeMap (map : List MapElement) (level : Int) (width height : Nat)
    (xMin yMin : Int) (imageName referenceName : List Nat)
    (compressionMethod : MapCompression) : Option (List Nat) :=
  match compressionMethod with
  | .OtherMapCompression => none
  | .UncompressedMap =>
    if width * height * 12 = 0 then none
    else
      some ([77, 49, 10] ++
        intDec level ++ [10] ++
        natDec width ++ [32] ++ natDec height ++ [10] ++
        intDec xMin ++ [32] ++ intDec yMin ++ [10] ++
        imageName ++ [32] ++ referenceName ++ [10] ++
        (map.map serElem).flatten)

/-- One `fgetc`: the character read (none at EOF) and the rest of the
stream. -/
def rdByteC : List Nat → Option Nat × List Nat
  | [] => (none, [])
  | b :: t => (some b, t)

/-- The inner comment loop of ReadHeader: consume characters through the next
newline; the character last read (the newline, or EOF) stays current. -/
def skipCommentLine : List Nat → Option Nat × List Nat
  | [] => (none, [])
  | b :: t => if b = 10 then (some 10, t) else skipCommentLine t

/-- The opening of ReadHeader: read one character and skip comment lines while
it is `'#'`.  (After a comment the current character is the newline that ended
it, which exits the loop.) -/
def skipHashComments : List Nat → Option Nat × List Nat
  | [] => (none, [])
  | b :: t => if b = 35 then skipCommentLine t else (some b, t)

/-- Is `b` one of the separators ReadHeader skips between header fields
(space, tab, newline, or the start of a comment)? -/
def isPnmSep (b : Nat) : Bool :=
  b == 32 || b == 9 || b == 10 || b == 35

/-- The separator-skipping loop of ReadHeader (`while (c==' '||c=='\t'||
c=='\n'||c=='#') ...`), with the current character pushed back onto the
stream.  In comment mode (first argument true) everything through the next
newline is discarded. -/
def skipPnmSep : Bool → List Nat → Option Nat × List Nat
  | _, [] => (none, [])
  | true, b :: t => if b = 10 then skipPnmSep false t else skipPnmSep true t
  | false, b :: t =>
    if b = 35 then skipPnmSep true t
    else if b = 32 ∨ b = 9 ∨ b = 10 then skipPnmSep false t
    else (some b, t)

/-- Entry into the separator loop when the current character `c` has already
been read. -/
def skipPnmSepFrom (c : Option Nat) (rest : List Nat) : Option Nat × List Nat :=
  match c with
  | none => (none, rest)
  | some b => skipPnmSep false (b :: rest)

/-- The digit-accumulation loop of ReadHeader: keep reading while digits
arrive; the character that ends the run is consumed (and returned as the new
current character). -/
def pnmDigits : Nat → Option Nat → List Nat → Nat × Option Nat × List Nat
  | v, none, rest => (v, none, rest)
  | v, some b, rest =>
    if isDigit b then
      match rest with
      | [] => (10 * v + (b - 48), none, [])
      | x :: t => pnmDigits (10 * v + (b - 48)) (some x) t
    else (v, some b, rest)

/-- ReadHeader (imio.c): parses a PNM header `P4`/`P5`/`P6` with comment
handling, returning the type character, width, height, the maxval (absent for
P4), and the remaining stream (positioned just past the single separator
character consumed after the last parsed number). -/
def readHeader (file : List Nat) : Option (Nat × Nat × Nat × Option Nat × List Nat) :=
  let c1 := skipHashComments file
  match c1.1 with
  | none => none
  | some p =>
    if p = 80 then
      match c1.2 with
      | [] => none
      | tc :: s2 =>
        if tc = 52 ∨ tc = 53 ∨ tc = 54 then
          let c3 := rdByteC s2
          let c4 := skipPnmSepFrom c3.1 c3.2
          match c4.1 with
          | none => none
          | some d =>
            if isDigit d then
              let pw := pnmDigits 0 (some d) c4.2
              let c5 := skipPnmSepFrom pw.2.1 pw.2.2
              match c5.1 with
              | none => none
              | some d2 =>
                if isDigit d2 then
                  let ph := pnmDigits 0 (some d2) c5.2
                  if tc = 52 then some (tc, pw.1, ph.1, none, ph.2.2)
                  else
                    let c6 := skipPnmSepFrom ph.2.1 ph.2.2
                    match c6.1 with
                    | none => none
                    | some d3 =>
                      if isDigit d3 then
                        let pm := pnmDigits 0 (some d3) c6.2
                        some (tc, pw.1, ph.1, some pm.1, pm.2.2)
                      else none
                else none
            else none
        else none
    else none

/-- The error outcomes of the image and bitmap routines, named after the
messages `imio.c` sprintf's into the caller's error buffer. -/
inductive ImgError
  | emptyFilename
  | cannotFind
  | cannotOpen
  | notPgm
  | notPpm
  | notPbm
  | truncated
  | badBmpHeader
  | badBmpBitCount
  | seekFail
  | allocFail
  | badBitsPerSample
  | badSamplesPerPixel
  | noWidth
  | noHeight
  | noPhotometric
  | decodeFail
deriving DecidableEq

/-- The error format string for a failed extension probe (ReadImage,
ReadImageSize); the filename is spliced in for the %s. -/
def cannotFindMsg : String := "Cannot find image file with basename %s\n"

/-- ReadPgmImage (imio.c) on the opened file's bytes: a ReadHeader parse (the
type character is not examined further) followed by an fread of `iw*ih`
pixels. -/
def readPgmImage (file : List Nat) : Except ImgError (List Nat × Nat × Nat) :=
  match readHeader file with
  | none => .error .notPgm
  | some (_, iw, ih, _, rest) =>
    if iw * ih ≤ rest.length then .ok (rest.take (iw * ih), iw, ih)
    else .error .truncated

/-- ReadPpmImage (imio.c): textually the same as ReadPgmImage apart from its
error message — it also freads only `iw*ih` bytes, one third of a P6 body,
which is how PPM input is "read as grayscale". -/
def readPpmImage (file : List Nat) : Except ImgError (List Nat × Nat × Nat) :=
  match readHeader file with
  | none => .error .notPpm
  | some (_, iw, ih, _, rest) =>
    if iw * ih ≤ rest.length then .ok (rest.take (iw * ih), iw, ih)
    else .error .truncated

/-- ReadPgmImageSize (imio.c): just the ReadHeader parse. -/
def readPgmImageSize (file : List Nat) : Except ImgError (Nat × Nat) :=
  match readHeader file with
  | none => .error .notPgm
  | some (_, iw, ih, _, _) => .ok (iw, ih)

/-- ReadPpmImageSize (imio.c): just the ReadHeader parse. -/
def readPpmImageSize (file : List Nat) : Except ImgError (Nat × Nat) :=
  match readHeader file with
  | none => .error .notPpm
  | some (_, iw, ih, _, _) => .ok (iw, ih)

/-- ReadPbmBitmap (imio.c): a ReadHeader parse that must yield type `'4'`,
then an fread of `ih*((iw+7)>>3)` raster bytes. -/
def readPbmBitmap (file : List Nat) : Except ImgError (List Nat × Nat × Nat) :=
  match readHeader file with
  | none => .error .notPbm
  | some (tc, iw, ih, _, rest) =>
    if tc ≠ 52 then .error .notPbm
    else
      let ibpl := (iw + 7) / 8
      if ih * ibpl ≤ rest.length then .ok (rest.take (ih * ibpl), iw, ih)
      else .error .truncated

/-- ReadPbmBitmapSize (imio.c): a ReadHeader parse that must yield `'4'`. -/
def readPbmBitmapSize (file : List Nat) : Except ImgError (Nat × Nat) :=
  match readHeader file with
  | none => .error .notPbm
  | some (tc, iw, ih, _, _) =>
    if tc ≠ 52 then .error .notPbm else .ok (iw, ih)

/-- ReadBmpImageSize (imio.c): reads the 14-byte file header and 40-byte info
header field by field (each a little-endian fread that must deliver its full
width), checks the `"BM"` magic, and returns `biWidth`/`biHeight` as signed
32-bit values.  No bit-count check is made here. -/
def readBmpImageSize (file : List Nat) : Except ImgError (Int × Int) := do
  let r ← (rdLE 2 file).elim (Except.error ImgError.badBmpHeader) Except.ok
  if r.1 ≠ 19778 then .error .badBmpHeader
  else do
    let r ← (rdLE 4 r.2).elim (Except.error ImgError.badBmpHeader) Except.ok  -- bfSize
    let r ← (rdLE 4 r.2).elim (Except.error ImgError.badBmpHeader) Except.ok  -- bfReserved
    let r ← (rdLE 4 r.2).elim (Except.error ImgError.badBmpHeader) Except.ok  -- bfOffset
    let r ← (rdLE 4 r.2).elim (Except.error ImgError.badBmpHeader) Except.ok  -- biSize
    let rw ← (rdLE 4 r.2).elim (Except.error ImgError.badBmpHeader) Except.ok -- biWidth
    let rh ← (rdLE 4 rw.2).elim (Except.error ImgError.badBmpHeader) Except.ok -- biHeight
    let r ← (rdLE 2 rh.2).elim (Except.error ImgError.badBmpHeader) Except.ok -- biPlanes
    let r ← (rdLE 2 r.2).elim (Except.error ImgError.badBmpHeader) Except.ok  -- biBitCount
    let r ← (rdLE 4 r.2).elim (Except.error ImgError.badBmpHeader) Except.ok  -- biCompression
    let r ← (rdLE 4 r.2).elim (Except.error ImgError.badBmpHeader) Except.ok  -- biImageSize
    let r ← (rdLE 4 r.2).elim (Except.error ImgError.badBmpHeader) Except.ok  -- biPixPerMeterX
    let r ← (rdLE 4 r.2).elim (Except.error ImgError.badBmpHeader) Except.ok  -- biPixPerMeterY
    let r ← (rdLE 4 r.2).elim (Except.error ImgError.badBmpHeader) Except.ok  -- biColorUsed
    let _ ← (rdLE 4 r.2).elim (Except.error ImgError.badBmpHeader) Except.ok  -- biColorImportant
    pure (int32 rw.1, int32 rh.1)

/-- The BMP row stride as ReadBmpImage computes it:
`rowsize = (int)(ceil((biBitCount*width/32)*4))` with `biBitCount = 8`.  The
division inside `ceil` is C *integer* division, so the expression is already
an integer before `ceil` sees it: the result is `(width/4)*4`, i.e. the width
rounded *down* to a multiple of 4. -/
def bmpRowsize (width : Nat) : Nat :=
  8 * width / 32 * 4

/-- The row loop of ReadBmpImage: `height` iterations, each an fread of
`width` bytes at the current position followed by
`fseek(f, rowsize - width, SEEK_CUR)`.  The seek target
`pos + width + (rowsize - width) = pos + rowsize` is never negative, so the
seek itself cannot fail; a short fread fails with the truncation error.  Rows
are returned in the order read (which ReadBmpImage stores bottom-up). -/
def bmpReadRows (file : List Nat) (width rowsize : Nat) :
    Nat → Nat → Except ImgError (List (List Nat))
  | _, 0 => .ok []
  | pos, n + 1 =>
    if width = 0 ∨ pos + width ≤ file.length then
      match bmpReadRows file width rowsize (pos + rowsize) n with
      | .ok rows => .ok (((file.drop pos).take width) :: rows)
      | .error e => .error e
    else .error .truncated

/-- ReadBmpImage (imio.c): parses the two headers (checking the magic and
`biBitCount == 8`), seeks to `bfOffset`, and reads `height` rows bottom-up
with the stride of `bmpRowsize`; the dimensions are returned as the
`int32_t` values of the header, as C does.  The degenerate dimensions follow
C's int arithmetic: a negative `width*height` product (exactly one negative
dimension) makes `malloc` request a huge size and fail; a nonnegative product
with `height <= 0` (both dimensions negative, or a zero area) lets the row
loop `for (i = height; i > 0; i--)` run zero times, so ReadBmpImage succeeds,
returning the malloc'd buffer unread (its contents are unspecified in C; the
model takes them as zeros). -/
def readBmpImage (file : List Nat) : Except ImgError (List Nat × Int × Int) := do
  let r0 ← (rdLE 2 file).elim (Except.error ImgError.badBmpHeader) Except.ok
  if r0.1 ≠ 19778 then .error .badBmpHeader
  else do
    let r ← (rdLE 4 r0.2).elim (Except.error ImgError.badBmpHeader) Except.ok  -- bfSize
    let r ← (rdLE 4 r.2).elim (Except.error ImgError.badBmpHeader) Except.ok   -- bfReserved
    let roff ← (rdLE 4 r.2).elim (Except.error ImgError.badBmpHeader) Except.ok -- bfOffset
    let r ← (rdLE 4 roff.2).elim (Except.error ImgError.badBmpHeader) Except.ok -- biSize
    let rw ← (rdLE 4 r.2).elim (Except.error ImgError.badBmpHeader) Except.ok  -- biWidth
    let rh ← (rdLE 4 rw.2).elim (Except.error ImgError.badBmpHeader) Except.ok -- biHeight
    let r ← (rdLE 2 rh.2).elim (Except.error ImgError.badBmpHeader) Except.ok  -- biPlanes
    let rbc ← (rdLE 2 r.2).elim (Except.error ImgError.badBmpHeader) Except.ok -- biBitCount
    if rbc.1 ≠ 8 then .error .badBmpBitCount
    else do
      let r ← (rdLE 4 rbc.2).elim (Except.error ImgError.badBmpHeader) Except.ok -- biCompression
      let r ← (rdLE 4 r.2).elim (Except.error ImgError.badBmpHeader) Except.ok   -- biImageSize
      let r ← (rdLE 4 r.2).elim (Except.error ImgError.badBmpHeader) Except.ok   -- biPixPerMeterX
      let r ← (rdLE 4 r.2).elim (Except.error ImgError.badBmpHeader) Except.ok   -- biPixPerMeterY
      let r ← (rdLE 4 r.2).elim (Except.error ImgError.badBmpHeader) Except.ok   -- biColorUsed
      let _ ← (rdLE 4 r.2).elim (Except.error ImgError.badBmpHeader) Except.ok   -- biColorImportant
      if int32 rw.1 * int32 rh.1 < 0 then .error .allocFail
      else if int32 rh.1 ≤ 0 then
        .ok (List.replicate (int32 rw.1 * int32 rh.1).toNat 0,
          int32 rw.1, int32 rh.1)
      else
        match bmpReadRows file (int32 rw.1).toNat (bmpRowsize (int32 rw.1).toNat)
            roff.1 (int32 rh.1).toNat with
        | .error e => .error e
        | .ok rows => .ok (rows.reverse.flatten, int32 rw.1, int32 rh.1)

/-- A concrete 8-bit uncompressed BMP file: width 5, height 2, pixel data at
offset 54, rows stored bottom-up with the standard padded stride
`5 + (4 - 5 % 4) % 4 = 8`.  Bottom row pixels `1..5` (padding `251,252,253`),
top row pixels `11..15` (padding `254,255,250`). -/
def bmpFile5x2 : List Nat :=
  [66, 77,
   70, 0, 0, 0,
   0, 0, 0, 0,
   54, 0, 0, 0,
   40, 0, 0, 0,
   5, 0, 0, 0,
   2, 0, 0, 0,
   1, 0,
   8, 0,
   0, 0, 0, 0,
   16, 0, 0, 0,
   0, 0, 0, 0,
   0, 0, 0, 0,
   0, 0, 0, 0,
   0, 0, 0, 0,
   1, 2, 3, 4, 5, 251, 252, 253,
   11, 12, 13, 14, 15, 254, 255, 250]

/-- PHOTOMETRIC_MINISBLACK in libtiff. -/
def PHOTOMETRIC_MINISBLACK : Nat := 1

/-- The bit flip `b[count] = ~b[count]` applied to an 8-bit sample. -/
def flipByte (b : Nat) : Nat := 255 - b % 256

/-- What the model sees of a TIFF file after libtiff has parsed it: the tag
values ReadTiffImage queries (`none` when `TIFFGetField` returns 0) and the
bytes `TIFFReadEncodedStrip` delivers over all strips. -/
structure TiffFile where
  bitsPerSample : Option Nat
  samplesPerPixel : Option Nat
  imageWidth : Option Nat
  imageLength : Option Nat
  photometric : Option Nat
  stripData : List Nat

/-- ReadTiffImage (imio.c) over the abstracted libtiff view: checks
`bps == 8`, `spp == 1` (an absent tag passes), defined width/height and a
defined photometric tag, then returns the strip bytes, complemented byte by
byte unless the photometric interpretation is min-is-black. -/
def readTiffImage (t : TiffFile) : Except ImgError (List Nat × Nat × Nat) :=
  if t.bitsPerSample ≠ some 8 then .error .badBitsPerSample
  else if t.samplesPerPixel ≠ none ∧ t.samplesPerPixel ≠ some 1 then
    .error .badSamplesPerPixel
  else
    match t.imageWidth with
    | none => .error .noWidth
    | some iw =>
      match t.imageLength with
      | none => .error .noHeight
      | some ih =>
        match t.photometric with
        | none => .error .noPhotometric
        | some photo =>
          if photo ≠ PHOTOMETRIC_MINISBLACK then
            .ok (t.stripData.map flipByte, iw, ih)
          else .ok (t.stripData, iw, ih)

/-- A filesystem: an association of file names (byte strings) to contents. -/
def FS : Type := List (List Nat × List Nat)

/-- stat(2): does `fn` exist, and with what content? -/
def statFS (fs : FS) (fn : List Nat) : Option (List Nat) :=
  match fs with
  | [] => none
  | p :: t => if p.1 = fn then some p.2 else statFS t fn

/-- The table `extensions[N_EXTENSIONS]` of imio.c (ASCII bytes). -/
def extTable : Nat → List Nat
  | 0 => [46, 116, 105, 102]
  | 1 => [46, 116, 105, 102, 102]
  | 2 => [46, 84, 73, 70]
  | 3 => [46, 84, 73, 70, 70]
  | 4 => [46, 112, 103, 109]
  | 5 => [46, 80, 71, 77]
  | 6 => [46, 112, 112, 109]
  | 7 => [46, 80, 80, 77]
  | 8 => [46, 106, 112, 103]
  | 9 => [46, 106, 112, 101, 103]
  | 10 => [46, 74, 80, 71]
  | 11 => [46, 74, 80, 69, 71]
  | 12 => [46, 98, 109, 112]
  | 13 => [46, 66, 77, 80]
  | _ => []

/-- The external decoders imio.c links against (libtiff for TIFF metadata and
strip decoding, libjpeg for JPEG), abstracted as functions of the file
bytes. -/
structure ExtDecoders where
  tiffView : List Nat → Option TiffFile
  tiffSize : List Nat → Except ImgError (Nat × Nat)
  jpgImage : List Nat → Except ImgError (List Nat × Nat × Nat)
  jpgSize : List Nat → Except ImgError (Nat × Nat)

/-- Open-and-read for TIFF: a failed TIFFOpen (absent or unparseable file)
reports an open error; otherwise ReadTiffImage runs on the parsed view. -/
def readTiffImageFS (d : ExtDecoders) (fs : FS) (fn : List Nat) :
    Except ImgError (List Nat × Nat × Nat) :=
  match statFS fs fn with
  | none => .error .cannotOpen
  | some content =>
    match d.tiffView content with
    | none => .error .cannotOpen
    | some t => readTiffImage t

/-- fopen-and-read wrapper for the PNM and BMP readers. -/
def readFileWith {α : Type} (rd : List Nat → Except ImgError α) (fs : FS)
    (fn : List Nat) : Except ImgError α :=
  match statFS fs fn with
  | none => .error .cannotOpen
  | some content => rd content

/-- The per-extension image reader selected by the `switch (k)` of ReadImage:
TIFF for 0–3, PGM for 4–5, PPM for 6–7, JPEG for 8–11, BMP for 12–13.  (The
BMP dimensions, nonnegative on success, are returned as the ints ReadImage
stores.) -/
def imageReaderFor (d : ExtDecoders) (fs : FS) (k : Nat) (fn : List Nat) :
    Except ImgError (List Nat × Nat × Nat) :=
  if k ≤ 3 then readTiffImageFS d fs fn
  else if k ≤ 5 then readFileWith readPgmImage fs fn
  else if k ≤ 7 then readFileWith readPpmImage fs fn
  else if k ≤ 11 then
    match statFS fs fn with
    | none => .error .cannotOpen
    | some content => d.jpgImage content
  else
    match readFileWith readBmpImage fs fn with
    | .error e => .error e
    | .ok (b, w, h) => .ok (b, w.toNat, h.toNat)

/-- The per-extension size reader selected by the `switch (k)` of
ReadImageSize.  (The BMP readers report the header's raw int dimensions; this
model keeps ReadImage's and ReadImageSize's dimensions as naturals, so the
int value is converted here — the conversion is the identity on every file
whose pixel rows are actually read.) -/
def sizeReaderFor (d : ExtDecoders) (fs : FS) (k : Nat) (fn : List Nat) :
    Except ImgError (Nat × Nat) :=
  if k ≤ 3 then
    match statFS fs fn with
    | none => .error .cannotOpen
    | some content => d.tiffSize content
  else if k ≤ 5 then readFileWith readPgmImageSize fs fn
  else if k ≤ 7 then readFileWith readPpmImageSize fs fn
  else if k ≤ 11 then
    match statFS fs fn with
    | none => .error .cannotOpen
    | some content => d.jpgSize content
  else
    match readFileWith readBmpImageSize fs fn with
    | .error e => .error e
    | .ok (w, h) => .ok (w.toNat, h.toNat)

/-- The probing loop of ReadImage/ReadImageSize: `i` counts probes made so
far, starting extension index `j` is the cached global; each probe stats
`filename` with extension `(j+i) % 14` appended and runs the matching reader
on the first hit.  Returns the reader's outcome and the new value of the
cached index (updated only when the reader succeeds, since a reader failure
returns before the `extension = k` assignment). -/
def probeLoop {α : Type} (rd : Nat → List Nat → Except ImgError α) (fs : FS)
    (filename : List Nat) (j : Nat) : Nat → Nat → Except ImgError α × Nat
  | _, 0 => (.error .cannotFind, j)
  | i, fuel + 1 =>
    let k := (j + i) % 14
    match statFS fs (filename ++ extTable k) with
    | none => probeLoop rd fs filename j (i + 1) fuel
    | some _ =>
      match rd k (filename ++ extTable k) with
      | .ok a => (.ok a, k)
      | .error e => (.error e, j)

/-- ReadImageSize (imio.c): dispatch on a recognized extension
(`.tif/.tiff/.pgm/.ppm/.jpg/.jpeg/.bmp`, case-insensitively), else probe the
14 known extensions cyclically from the cached index.  The pair's second
component is the value of the `extension` global after the call. -/
def readImageSize (d : ExtDecoders) (fs : FS) (j : Nat) (filename : List Nat) :
    Except ImgError (Nat × Nat) × Nat :=
  let len := filename.length
  if len = 0 then (.error .emptyFilename, j)
  else if (4 < len ∧ suffixCI filename [46, 116, 105, 102]) ∨
      (5 < len ∧ suffixCI filename [46, 116, 105, 102, 102]) then
    (match statFS fs filename with
     | none => .error .cannotOpen
     | some content => d.tiffSize content, j)
  else if 4 < len ∧ suffixCI filename [46, 112, 103, 109] then
    (readFileWith readPgmImageSize fs filename, j)
  else if 4 < len ∧ suffixCI filename [46, 112, 112, 109] then
    (readFileWith readPpmImageSize fs filename, j)
  else if (4 < len ∧ suffixCI filename [46, 106, 112, 103]) ∨
      (5 < len ∧ suffixCI filename [46, 106, 112, 101, 103]) then
    (match statFS fs filename with
     | none => .error .cannotOpen
     | some content => d.jpgSize content, j)
  else if 4 < len ∧ suffixCI filename [46, 98, 109, 112] then
    (match readFileWith readBmpImageSize fs filename with
     | .error e => .error e
     | .ok (w, h) => .ok (w.toNat, h.toNat), j)
  else probeLoop (sizeReaderFor d fs) fs filename j 0 14

/-- One output row of the subregion extraction of ReadImage (the branch
structure of its row loop, verbatim): all-zero when the source row is out of
range, a straight copy when the requested columns all exist, and a copy of
the available columns padded with zeroes otherwise. -/
def regionRow (buffer : List Nat) (iw ih : Nat) (xmin w : Nat) (xmaxI : Int)
    (y : Int) : List Nat :=
  if (ih : Int) ≤ y ∨ iw ≤ xmin then List.replicate w 0
  else if xmaxI < (iw : Int) then (buffer.drop (y.toNat * iw + xmin)).take w
  else if w < iw - xmin then (buffer.drop (y.toNat * iw + xmin)).take w
  else
    (buffer.drop (y.toNat * iw + xmin)).take (iw - xmin) ++
      List.replicate (xmaxI - iw + 1).toNat 0

/-- The subregion logic at the end of ReadImage: negative bounds mean "to the
image edge"; a request covering the whole image returns the decoded buffer
unchanged; otherwise a `w x h` buffer is assembled row by row.  When the
clamped width or height is negative, the C `malloc(w*h)` receives a huge
size_t and fails. -/
def extractRegion (buffer : List Nat) (iw ih : Nat)
    (minX maxX minY maxY : Int) : Except ImgError (List Nat × Nat × Nat) :=
  if minX ≤ 0 ∧ (maxX < 0 ∨ maxX = (iw : Int) - 1) ∧
      minY ≤ 0 ∧ (maxY < 0 ∨ maxY = (ih : Int) - 1) then
    .ok (buffer, iw, ih)
  else
    let xmin : Nat := minX.toNat
    let xmaxI : Int := if maxX < 0 then (iw : Int) - 1 else maxX
    let ymin : Nat := minY.toNat
    let ymaxI : Int := if maxY < 0 then (ih : Int) - 1 else maxY
    let w : Int := xmaxI - xmin + 1
    let h : Int := ymaxI - ymin + 1
    if w * h < 0 then .error .allocFail
    else
      .ok (((List.range h.toNat).map
          (fun r => regionRow buffer iw ih xmin w.toNat xmaxI
            ((ymin + r : Nat) : Int))).flatten,
        w.toNat, h.toNat)

/-- ReadImage (imio.c): dispatch on a recognized extension — `.tif/.tiff`,
`.pgm`, `.jpg/.jpeg`, `.bmp`; unlike ReadImageSize there is *no* `.ppm`
branch — else probe the 14 extensions cyclically; then apply the subregion
extraction.  The pair's second component is the `extension` global after the
call. -/
def readImage (d : ExtDecoders) (fs : FS) (j : Nat) (filename : List Nat)
    (minX maxX minY maxY : Int) :
    Except ImgError (List Nat × Nat × Nat) × Nat :=
  let len := filename.length
  let raw : Except ImgError (List Nat × Nat × Nat) × Nat :=
    if len = 0 then (.error .emptyFilename, j)
    else if (4 < len ∧ suffixCI filename [46, 116, 105, 102]) ∨
        (5 < len ∧ suffixCI filename [46, 116, 105, 102, 102]) then
      (readTiffImageFS d fs filename, j)
    else if 4 < len ∧ suffixCI filename [46, 112, 103, 109] then
      (readFileWith readPgmImage fs filename, j)
    else if (4 < len ∧ suffixCI filename [46, 106, 112, 103]) ∨
        (5 < len ∧ suffixCI filename [46, 106, 112, 101, 103]) then
      (match statFS fs filename with
       | none => .error .cannotOpen
       | some content => d.jpgImage content, j)
    else if 4 < len ∧ suffixCI filename [46, 98, 109, 112] then
      (match readFileWith readBmpImage fs filename with
       | .error e => .error e
       | .ok (b, w, h) => .ok (b, w.toNat, h.toNat), j)
    else probeLoop (imageReaderFor d fs) fs filename j 0 14
  match raw with
  | (.error e, j2) => (.error e, j2)
  | (.ok (buffer, iw, ih), j2) =>
    (extractRegion buffer iw ih minX maxX minY maxY, j2)

/-- The `enum ImageCompression` methods WriteImage understands. -/
inductive ImageCompression
  | UncompressedImage
  | HDiffDeflateImage
  | JpegQuality95
  | JpegQuality90
  | JpegQuality85
  | JpegQuality80
  | JpegQuality75
  | JpegQuality70
  | OtherImageCompression
deriving DecidableEq

/-- The external encoders WriteImage drives (libtiff scanline writing, libjpeg
compression), abstracted as functions from pixels, dimensions and method or
quality to the bytes of the written file. -/
structure ExtEncoders where
  tiffOut : List Nat → Nat → Nat → ImageCompression → Option (List Nat)
  jpgOut : List Nat → Nat → Nat → Nat → Option (List Nat)

/-- WriteImage (imio.c): requires at least 5 filename bytes, then dispatches
on the extension.  The `.pgm` branch writes `"P5\n%d %d\n255\n"` and one
fwrite of `width*height` pixel bytes (which fails when that size is zero);
`.jpg` maps the method to a quality and defers to WriteJpgImage; anything
else is an unrecognized extension.  Returns the bytes of the written file. -/
def writeImage (e : ExtEncoders) (filename : List Nat) (pixels : List Nat)
    (width height : Nat) (compressionMethod : ImageCompression) :
    Option (List Nat) :=
  let len := filename.length
  if len < 5 then none
  else if suffixCI filename [46, 116, 105, 102] ∨
      (5 < len ∧ suffixCI filename [46, 116, 105, 102, 102]) then
    match compressionMethod with
    | .UncompressedImage => e.tiffOut pixels width height .UncompressedImage
    | .HDiffDeflateImage => e.tiffOut pixels width height .HDiffDeflateImage
    | _ => none
  else if suffixCI filename [46, 112, 103, 109] then
    if width * height = 0 then none
    else
      some ([80, 53, 10] ++ natDec width ++ [32] ++ natDec height ++
        [10, 50, 53, 53, 10] ++ pixels)
  else if suffixCI filename [46, 106, 112, 103] then
    match compressionMethod with
    | .JpegQuality95 => e.jpgOut pixels width height 95
    | .JpegQuality90 => e.jpgOut pixels width height 90
    | .JpegQuality85 => e.jpgOut pixels width height 85
    | .JpegQuality80 => e.jpgOut pixels width height 80
    | .JpegQuality75 => e.jpgOut pixels width height 75
    | .JpegQuality70 => e.jpgOut pixels width height 70
    | _ => none
  else none

/-- Index of the last occurrence of byte `b` in `xs` (C `strrchr`). -/
def lastIdxOf : List Nat → Nat → Option Nat
  | [], _ => none
  | x :: t, b =>
    match lastIdxOf t b with
    | some i => some (i + 1)
    | none => if x = b then some 0 else none

/-- The `enum BitmapCompression` parameter of WriteBitmap (which the function
never consults). -/
inductive BitmapCompression
  | UncompressedBitmap
  | OtherBitmapCompression
deriving DecidableEq

/-- WriteBitmap (imio.c): appends ".pbm" when the filename has no dot after
its last slash; then the `.pbm` branch writes `"P4\n%d %d\n"` and one fwrite
of `((width+7)>>3)*height` raster bytes (failing when that size is zero), and
the `.pbm.gz` branch writes the same stream through zlib (abstracted as
`gz`).  The suffix tests read 4 (resp. 7) bytes before the end, so they can
only match names at least that long. -/
def writeBitmap (gz : List Nat → List Nat) (filename : List Nat)
    (bitmap : List Nat) (width height : Nat)
    (_compressionMethod : BitmapCompression) : Option (List Nat) :=
  if filename.length < 1 then none
  else
    let dotPos := lastIdxOf filename 46
    let slashPos := lastIdxOf filename 47
    let full :=
      if dotPos = none ∨
          (∃ s ∈ slashPos, ∃ d ∈ dotPos, d < s) then
        filename ++ [46, 112, 98, 109]
      else filename
    let len := full.length
    if 4 ≤ len ∧ suffixCI full [46, 112, 98, 109] then
      if (width + 7) / 8 * height = 0 then none
      else
        some ([80, 52, 10] ++ natDec width ++ [32] ++ natDec height ++ [10] ++
          bitmap)
    else if 7 < len ∧ suffixCI full [46, 112, 98, 109, 46, 103, 122] then
      some (gz ([80, 52, 10] ++ natDec width ++ [32] ++ natDec height ++ [10] ++
        bitmap))
    else none

theorem digitRun_cons (acc b : Nat) (t : List Nat) :
    digitRun acc (b :: t) =
      if isDigit b then digitRun (10 * acc + (b - 48)) t else (acc, b :: t) := rfl

theorem takeNonWS_cons (b : Nat) (t : List Nat) :
    takeNonWS (b :: t) =
      if isWS b then ([], b :: t)
      else ((b :: (takeNonWS t).1, (takeNonWS t).2) : List Nat × List Nat) := rfl

theorem skipWS_cons_ws {b : Nat} (t : List Nat) (h : isWS b = true) :
    skipWS (b :: t) = skipWS t := by
  simp [skipWS, h]

theorem skipWS_head_not_ws {s : List Nat} (h : ∀ b ∈ s.head?, isWS b = false) :
    skipWS s = s := by
  cases s with
  | nil => rfl
  | cons b t =>
    have hb : isWS b = false := h b (by simp)
    simp [skipWS, hb]

theorem digitRun_append (ds : List Nat) (r : List Nat)
    (h : ∀ d ∈ ds, isDigit d = true) :
    ∀ acc, digitRun acc (ds ++ r) = digitRun (foldDigits acc ds) r := by
  induction ds with
  | nil => intro acc; simp [foldDigits]
  | cons d t ih =>
    intro acc
    have hd : isDigit d = true := h d (by simp)
    have ht : ∀ x ∈ t, isDigit x = true := fun x hx => h x (by simp [hx])
    rw [List.cons_append, digitRun_cons]
    simp only [hd, if_true]
    rw [ih ht (10 * acc + (d - 48))]
    simp [foldDigits]

theorem digitRun_head_not_digit {r : List Nat} (acc : Nat)
    (h : ∀ b ∈ r.head?, isDigit b = false) :
    digitRun acc r = (acc, r) := by
  cases r with
  | nil => rfl
  | cons b t =>
    have hb : isDigit b = false := h b (by simp)
    simp [digitRun, hb]

theorem decLE_digits : ∀ n, ∀ d ∈ decLE n, isDigit d = true := by
  intro n
  induction n using Nat.strong_induction_on with
  | _ n ih =>
    rw [decLE]
    split
    · simp
    · rename_i hn
      intro d hd
      rcases List.mem_cons.1 hd with h1 | h2
      · subst h1
        have : n % 10 < 10 := Nat.mod_lt _ (by norm_num)
        simp only [isDigit, Bool.and_eq_true, decide_eq_true_eq]
        omega
      · exact ih (n / 10) (Nat.div_lt_self (Nat.pos_of_ne_zero hn) (by norm_num)) d h2

theorem decLE_ne_nil {n : Nat} (h : n ≠ 0) : decLE n ≠ [] := by
  rw [decLE]
  simp [h]

theorem foldDigits_append (acc : Nat) (xs ys : List Nat) :
    foldDigits acc (xs ++ ys) = foldDigits (foldDigits acc xs) ys := by
  simp [foldDigits, List.foldl_append]

theorem foldDigits_decLE_rev : ∀ n acc,
    foldDigits acc (decLE n).reverse = acc * 10 ^ (decLE n).length + n := by
  intro n
  induction n using Nat.strong_induction_on with
  | _ n ih =>
    intro acc
    by_cases hn : n = 0
    · subst hn
      rw [decLE]
      simp [foldDigits]
    · rw [decLE]
      simp only [hn, dite_false]
      rw [List.reverse_cons, foldDigits_append,
        ih (n / 10) (Nat.div_lt_self (Nat.pos_of_ne_zero hn) (by norm_num)) acc]
      simp only [foldDigits, List.foldl_cons, List.foldl_nil, List.length_cons]
      rw [pow_succ]
      have hmod : n % 10 + 48 - 48 = n % 10 := by omega
      rw [hmod]
      have h2 : acc * (10 ^ (decLE (n / 10)).length * 10) =
          acc * 10 ^ (decLE (n / 10)).length * 10 := by ring
      rw [h2]
      generalize acc * 10 ^ (decLE (n / 10)).length = A
      omega

theorem natDec_digits (n : Nat) : ∀ d ∈ natDec n, isDigit d = true := by
  unfold natDec
  split
  · intro d hd
    simp only [List.mem_singleton] at hd
    subst hd
    decide
  · intro d hd
    exact decLE_digits n d (List.mem_reverse.1 hd)

theorem natDec_ne_nil (n : Nat) : natDec n ≠ [] := by
  unfold natDec
  split
  · simp
  · rename_i h
    simpa using decLE_ne_nil h

theorem foldDigits_natDec (n : Nat) : foldDigits 0 (natDec n) = n := by
  unfold natDec
  split
  · rename_i h
    subst h
    decide
  · rw [foldDigits_decLE_rev]
    simp

theorem digitRun_natDec (n : Nat) {r : List Nat}
    (hr : ∀ b ∈ r.head?, isDigit b = false) :
    digitRun 0 (natDec n ++ r) = (n, r) := by
  rw [digitRun_append (natDec n) r (natDec_digits n) 0, foldDigits_natDec,
    digitRun_head_not_digit n hr]

theorem digit_not_ws {b : Nat} (h : isDigit b = true) : isWS b = false := by
  simp only [isDigit, Bool.and_eq_true, decide_eq_true_eq] at h
  simp only [isWS, Bool.or_eq_false_iff, beq_eq_false_iff_ne, ne_eq]
  omega

theorem natDec_head_digit (n : Nat) :
    ∃ d t, natDec n = d :: t ∧ isDigit d = true := by
  cases hnd : natDec n with
  | nil => exact absurd hnd (natDec_ne_nil n)
  | cons d t =>
    refine ⟨d, t, rfl, ?_⟩
    have := natDec_digits n d (by rw [hnd]; simp)
    exact this

theorem scanInt_natDec (n : Nat) {r : List Nat}
    (hr : ∀ b ∈ r.head?, isDigit b = false) :
    scanInt (natDec n ++ r) = some ((n : Int), r) := by
  obtain ⟨d, t, hdt, hd⟩ := natDec_head_digit n
  have hskip : skipWS (natDec n ++ r) = natDec n ++ r := by
    apply skipWS_head_not_ws
    intro b hb
    rw [hdt] at hb
    simp only [List.cons_append, List.head?_cons, Option.mem_def, Option.some.injEq] at hb
    subst hb
    exact digit_not_ws hd
  have hd45 : d ≠ 45 := by
    simp only [isDigit, Bool.and_eq_true, decide_eq_true_eq] at hd
    omega
  have hd43 : d ≠ 43 := by
    simp only [isDigit, Bool.and_eq_true, decide_eq_true_eq] at hd
    omega
  unfold scanInt
  rw [hskip, hdt, List.cons_append]
  simp only [hd45, if_false, hd43, hd, if_true]
  have : digitRun 0 (d :: (t ++ r)) = (n, r) := by
    have := digitRun_natDec n hr
    rwa [hdt, List.cons_append] at this
  rw [this]

theorem scanInt_intDec (i : Int) {r : List Nat}
    (hr : ∀ b ∈ r.head?, isDigit b = false) :
    scanInt (intDec i ++ r) = some (i, r) := by
  unfold intDec
  split
  · rename_i hneg
    obtain ⟨d, t, hdt, hd⟩ := natDec_head_digit i.natAbs
    have hskip : skipWS (45 :: (natDec i.natAbs ++ r)) = 45 :: (natDec i.natAbs ++ r) := by
      apply skipWS_head_not_ws
      intro b hb
      simp only [List.head?_cons, Option.mem_def, Option.some.injEq] at hb
      subst hb
      decide
    unfold scanInt
    rw [List.cons_append, hskip]
    simp only [if_true]
    rw [hdt, List.cons_append]
    simp only [hd, if_true]
    have : digitRun 0 (d :: (t ++ r)) = (i.natAbs, r) := by
      have := digitRun_natDec i.natAbs hr
      rwa [hdt, List.cons_append] at this
    rw [this]
    simp only [Option.some.injEq, Prod.mk.injEq, and_true]
    omega
  · rename_i hpos
    rw [scanInt_natDec i.toNat hr]
    simp only [Option.some.injEq, Prod.mk.injEq, and_true]
    omega

theorem takeNonWS_append (w : List Nat) (r : List Nat)
    (hw : ∀ b ∈ w, isWS b = false)
    (hr : ∀ b ∈ r.head?, isWS b = true) :
    takeNonWS (w ++ r) = (w, r) := by
  induction w with
  | nil =>
    cases r with
    | nil => rfl
    | cons b t =>
      have hb : isWS b = true := hr b (by simp)
      simp [takeNonWS, hb]
  | cons d t ih =>
    have hd : isWS d = false := hw d (by simp)
    have ht : ∀ x ∈ t, isWS x = false := fun x hx => hw x (by simp [hx])
    rw [List.cons_append, takeNonWS_cons]
    simp only [hd, if_false]
    rw [ih ht]
    simp

theorem scanStr_name (name : List Nat) {r : List Nat}
    (h1 : name ≠ []) (h2 : ∀ b ∈ name, isWS b = false)
    (hr : ∀ b ∈ r.head?, isWS b = true) :
    scanStr (name ++ r) = some (name, r) := by
  have hskip : skipWS (name ++ r) = name ++ r := by
    apply skipWS_head_not_ws
    intro b hb
    cases name with
    | nil => exact absurd rfl h1
    | cons d t =>
      simp only [List.cons_append, List.head?_cons, Option.mem_def, Option.some.injEq] at hb
      subst hb
      exact h2 d (by simp)
  unfold scanStr
  rw [hskip, takeNonWS_append name r h2 hr]
  cases name with
  | nil => exact absurd rfl h1
  | cons d t => rfl

theorem scanInt_cons_ws {b : Nat} (s : List Nat) (h : isWS b = true) :
    scanInt (b :: s) = scanInt s := by
  unfold scanInt
  rw [skipWS_cons_ws s h]

theorem scanStr_cons_ws {b : Nat} (s : List Nat) (h : isWS b = true) :
    scanStr (b :: s) = scanStr s := by
  unfold scanStr
  rw [skipWS_cons_ws s h]

theorem length_serElem (e : MapElement) : (serElem e).length = 12 := rfl

theorem leVal_le32 {n : Nat} (h : n < 4294967296) : leVal (le32 n) = n := by
  simp only [le32, leVal]
  omega

theorem serFlatten_length (l : List MapElement) :
    ((l.map serElem).flatten).length = 12 * l.length := by
  induction l with
  | nil => rfl
  | cons e t ih =>
    simp only [List.map_cons, List.flatten_cons, List.length_append, ih,
      length_serElem, List.length_cons]
    ring

theorem elemOfBytes_ser (e : MapElement) (rest : List Nat) (h : e.wf) :
    elemOfBytes (serElem e ++ rest) = e := by
  obtain ⟨x, y, c⟩ := e
  obtain ⟨hx, hy, hc⟩ := h
  have h0 : serElem ⟨x, y, c⟩ ++ rest = le32 x ++ (le32 y ++ (le32 c ++ rest)) := by
    simp [serElem]
  rw [h0]
  have h1 : elemOfBytes (le32 x ++ (le32 y ++ (le32 c ++ rest))) =
      MapElement.mk (leVal (le32 x)) (leVal (le32 y)) (leVal (le32 c)) := rfl
  rw [h1, leVal_le32 hx, leVal_le32 hy, leVal_le32 hc]

theorem decodeElems_ser (es : List MapElement) (r : List Nat)
    (hwf : ∀ e ∈ es, e.wf) :
    decodeElems es.length ((es.map serElem).flatten ++ r) = some (es, r) := by
  induction es with
  | nil => rfl
  | cons e t ih =>
    have hef : e.wf := hwf e (by simp)
    have htf : ∀ x ∈ t, x.wf := fun x hx => hwf x (by simp [hx])
    have hshape : ((e :: t).map serElem).flatten ++ r =
        serElem e ++ ((t.map serElem).flatten ++ r) := by
      simp [List.append_assoc]
    rw [List.length_cons, hshape]
    unfold decodeElems
    have hlen : 12 ≤ (serElem e ++ ((t.map serElem).flatten ++ r)).length := by
      simp [length_serElem]
    simp only [hlen, if_true]
    have hdrop : (serElem e ++ ((t.map serElem).flatten ++ r)).drop 12 =
        (t.map serElem).flatten ++ r := by
      have := List.drop_left (serElem e) ((t.map serElem).flatten ++ r)
      rwa [length_serElem] at this
    rw [hdrop, ih htf, elemOfBytes_ser e _ hef]

theorem decodeElems_length :
    ∀ (n : Nat) (s : List Nat) (es : List MapElement) (r : List Nat),
      decodeElems n s = some (es, r) → es.length = n := by
  intro n
  induction n with
  | zero =>
    intro s es r h
    simp only [decodeElems, Option.some.injEq, Prod.mk.injEq] at h
    rw [← h.1]
    rfl
  | succ n ih =>
    intro s es r h
    unfold decodeElems at h
    split at h
    · cases hd : decodeElems n (s.drop 12) with
      | none => rw [hd] at h; simp at h
      | some p =>
        obtain ⟨es', r'⟩ := p
        rw [hd] at h
        simp only [Option.some.injEq, Prod.mk.injEq] at h
        rw [← h.1, List.length_cons, ih (s.drop 12) es' r' hd]
    · simp at h

theorem parseMapHeader_cons (s0 : List Nat) :
    parseMapHeader (77 :: 49 :: 10 :: s0) = parseMapFields s0 := rfl

theorem parseMapHeader_magic {f : List Nat}
    {x : Int × Int × Int × Int × Int × List Nat × List Nat × List Nat}
    (h : parseMapHeader f = some x) : f.take 3 = [77, 49, 10] := by
  unfold parseMapHeader at h
  split at h
  · rename_i s0 heq
    simp
  · simp at h

theorem parseMapFields_write (level : Int) (w h : Nat) (xm ym : Int)
    (img ref body : List Nat)
    (himg1 : img ≠ []) (himg2 : ∀ b ∈ img, isWS b = false)
    (href1 : ref ≠ []) (href2 : ∀ b ∈ ref, isWS b = false) :
    parseMapFields (intDec level ++ 10 :: (natDec w ++ 32 :: (natDec h ++
      10 :: (intDec xm ++ 32 :: (intDec ym ++ 10 :: (img ++ 32 ::
        (ref ++ 10 :: body))))))) =
      some (level, (w : Int), (h : Int), xm, ym, img, ref, body) := by
  have hwsN : isWS 10 = true := by decide
  have hwsS : isWS 32 = true := by decide
  have hndN : ∀ (l : List Nat) (b : Nat), b ∈ (10 :: l).head? → isDigit b = false := by
    intro l b hb
    simp only [List.head?_cons, Option.mem_def, Option.some.injEq] at hb
    subst hb
    decide
  have hndS : ∀ (l : List Nat) (b : Nat), b ∈ (32 :: l).head? → isDigit b = false := by
    intro l b hb
    simp only [List.head?_cons, Option.mem_def, Option.some.injEq] at hb
    subst hb
    decide
  have hwN : ∀ (l : List Nat) (b : Nat), b ∈ (10 :: l).head? → isWS b = true := by
    intro l b hb
    simp only [List.head?_cons, Option.mem_def, Option.some.injEq] at hb
    subst hb
    decide
  have hwS : ∀ (l : List Nat) (b : Nat), b ∈ (32 :: l).head? → isWS b = true := by
    intro l b hb
    simp only [List.head?_cons, Option.mem_def, Option.some.injEq] at hb
    subst hb
    decide
  have e1 := scanInt_intDec level (hndN (natDec w ++ 32 :: (natDec h ++
    10 :: (intDec xm ++ 32 :: (intDec ym ++ 10 :: (img ++ 32 ::
      (ref ++ 10 :: body)))))))
  have e2a := scanInt_natDec w (hndS (natDec h ++ 10 :: (intDec xm ++ 32 ::
    (intDec ym ++ 10 :: (img ++ 32 :: (ref ++ 10 :: body))))))
  have e2 := (scanInt_cons_ws _ hwsN).trans e2a
  have e3a := scanInt_natDec h (hndN (intDec xm ++ 32 :: (intDec ym ++ 10 ::
    (img ++ 32 :: (ref ++ 10 :: body)))))
  have e3 := (scanInt_cons_ws _ hwsS).trans e3a
  have e4a := scanInt_intDec xm (hndS (intDec ym ++ 10 :: (img ++ 32 ::
    (ref ++ 10 :: body))))
  have e4 := (scanInt_cons_ws _ hwsN).trans e4a
  have e5a := scanInt_intDec ym (hndN (img ++ 32 :: (ref ++ 10 :: body)))
  have e5 := (scanInt_cons_ws _ hwsS).trans e5a
  have e6a := scanStr_name img himg1 himg2 (hwS (ref ++ 10 :: body))
  have e6 := (scanStr_cons_ws _ hwsN).trans e6a
  have e7a := scanStr_name ref href1 href2 (hwN body)
  have e7 := (scanStr_cons_ws _ hwsS).trans e7a
  simp only [parseMapFields, e1, e2, e3, e4, e5, e6, e7]

/-- C4: WriteMap with the uncompressed method writes exactly the ASCII header
`"M1\n"`, the level line, the `width height` line, the `xMin yMin` line, the
`imageName referenceName` line, each newline-terminated with space-separated
fields, followed immediately by `width*height*sizeof(MapElement)` raw bytes of
the vertex array in row-major order. -/
theorem writeMap_uncompressed_format (map : List MapElement) (level : Int)
    (width height : Nat) (xMin yMin : Int) (img ref : List Nat)
    (hpos : 0 < width * height) (hlen : map.length = width * height) :
    writeMap map level width height xMin yMin img ref .UncompressedMap =
      some ([77, 49, 10] ++ intDec level ++ [10] ++
        natDec width ++ [32] ++ natDec height ++ [10] ++
        intDec xMin ++ [32] ++ intDec yMin ++ [10] ++
        img ++ [32] ++ ref ++ [10] ++ (map.map serElem).flatten) ∧
    ((map.map serElem).flatten).length = width * height * 12 := by
  constructor
  · unfold writeMap
    have : ¬ (width * height * 12 = 0) := by omega
    simp [this]
  · rw [serFlatten_length, hlen]
    ring

theorem writeMap_uncompressed_format_witness :
    writeMap [⟨1, 2, 3⟩] (-7) 1 1 0 (-1) [105] [114] .UncompressedMap =
      some ([77, 49, 10] ++ intDec (-7) ++ [10] ++
        natDec 1 ++ [32] ++ natDec 1 ++ [10] ++
        intDec 0 ++ [32] ++ intDec (-1) ++ [10] ++
        [105] ++ [32] ++ [114] ++ [10] ++
        (([⟨1, 2, 3⟩] : List MapElement).map serElem).flatten) ∧
    ((([⟨1, 2, 3⟩] : List MapElement).map serElem).flatten).length = 1 * 1 * 12 :=
  writeMap_uncompressed_format [⟨1, 2, 3⟩] (-7) 1 1 0 (-1) [105] [114]
    (by decide) (by decide)

/-- C1: a map whose image and reference names are non-empty and free of
whitespace, written with WriteMap (uncompressed) and read back with ReadMap,
round-trips: same level, dimensions, offsets and names, and all
`width*height` vertices bit-exactly equal (their three 32-bit fields are
recovered byte for byte). -/
theorem writeMap_readMap_roundtrip (map : List MapElement) (level : Int)
    (w h : Nat) (xMin yMin : Int) (img ref : List Nat)
    (hw : 0 < w) (hh : 0 < h) (hlen : map.length = w * h)
    (hwf : ∀ e ∈ map, e.wf)
    (himg1 : img ≠ []) (himg2 : ∀ b ∈ img, isWS b = false)
    (href1 : ref ≠ []) (href2 : ∀ b ∈ ref, isWS b = false) :
    ∃ file, writeMap map level w h xMin yMin img ref .UncompressedMap = some file ∧
      readMap file = .ok ⟨level, (w : Int), (h : Int), xMin, yMin, img, ref, map⟩ := by
  have hfmt := (writeMap_uncompressed_format map level w h xMin yMin img ref
    (Nat.mul_pos hw hh) hlen).1
  refine ⟨_, hfmt, ?_⟩
  have hshape : [77, 49, 10] ++ intDec level ++ [10] ++
      natDec w ++ [32] ++ natDec h ++ [10] ++
      intDec xMin ++ [32] ++ intDec yMin ++ [10] ++
      img ++ [32] ++ ref ++ [10] ++ (map.map serElem).flatten =
      77 :: 49 :: 10 :: (intDec level ++ 10 :: (natDec w ++ 32 :: (natDec h ++
        10 :: (intDec xMin ++ 32 :: (intDec yMin ++ 10 :: (img ++ 32 ::
          (ref ++ 10 :: ((map.map serElem).flatten)))))))) := by
    simp [List.append_assoc]
  unfold readMap
  rw [hshape, parseMapHeader_cons,
    parseMapFields_write level w h xMin yMin img ref _ himg1 himg2 href1 href2]
  have hneg : ¬ ((w : Int) * (h : Int) < 0) :=
    not_lt.mpr (mul_nonneg (Int.natCast_nonneg w) (Int.natCast_nonneg h))
  simp only [hneg, if_false]
  have htn : ((w : Int) * (h : Int)).toNat = w * h := by
    rw [← Int.natCast_mul, Int.toNat_natCast]
  rw [htn, ← hlen]
  have hdec := decodeElems_ser map [] hwf
  rw [List.append_nil] at hdec
  rw [hdec]

theorem writeMap_readMap_roundtrip_witness :
    ∃ file, writeMap [⟨1, 2, 3⟩] (-7) 1 1 0 (-1) [105] [114] .UncompressedMap =
      some file ∧
      readMap file = .ok ⟨-7, 1, 1, 0, -1, [105], [114], [⟨1, 2, 3⟩]⟩ :=
  writeMap_readMap_roundtrip [⟨1, 2, 3⟩] (-7) 1 1 0 (-1) [105] [114]
    (by decide) (by decide) (by decide) (by decide) (by decide) (by decide)
    (by decide) (by decide)

theorem readMap_header_none {f : List Nat} (hp : parseMapHeader f = none) :
    readMap f = .error .headerError := by
  unfold readMap
  rw [hp]

theorem readMap_header_some {f : List Nat} {level mw mh xm ym : Int}
    {img ref body : List Nat}
    (hp : parseMapHeader f = some (level, mw, mh, xm, ym, img, ref, body)) :
    readMap f =
      (if mw * mh < 0 then .error .allocError
       else
         match decodeElems (mw * mh).toNat body with
         | none => .error .readError
         | some (es, _) => .ok ⟨level, mw, mh, xm, ym, img, ref, es⟩) := by
  unfold readMap
  rw [hp]

/-- C5: whenever ReadMap succeeds, the file began with the exact magic
`"M1\n"` (anything else fails the header check), and the returned map holds
exactly `mapWidth*mapHeight` vertices — never a partially filled map, since a
short fread is rejected; every error ReadMap can produce is a single-line
message.  (The dimensions themselves need not be nonnegative: C accepts a
header in which both are negative, whose product is then positive.) -/
theorem readMap_ok_implies_wellformed (f : List Nat) (r : MapData)
    (h : readMap f = .ok r) :
    f.take 3 = [77, 49, 10] ∧
    (r.elements.length : Int) = r.mapWidth * r.mapHeight ∧
    (∀ e : MapError, (mapErrorMsg e).data.count '\n' = 1) := by
  have hmsg : ∀ e : MapError, (mapErrorMsg e).data.count '\n' = 1 := by
    intro e
    cases e <;> decide
  cases hp : parseMapHeader f with
  | none =>
    rw [readMap_header_none hp] at h
    simp at h
  | some x =>
    obtain ⟨level, mw, mh, xm, ym, img, ref, body⟩ := x
    rw [readMap_header_some hp] at h
    split at h
    · simp at h
    · rename_i hneg
      have hprod : 0 ≤ mw * mh := not_lt.mp hneg
      cases hd : decodeElems (mw * mh).toNat body with
      | none =>
        rw [hd] at h
        simp at h
      | some p =>
        obtain ⟨es, rest⟩ := p
        rw [hd] at h
        simp only [Except.ok.injEq] at h
        have hlen := decodeElems_length (mw * mh).toNat body es rest hd
        refine ⟨parseMapHeader_magic hp, ?_, hmsg⟩
        rw [← h]
        simp only [hlen]
        rw [Int.toNat_of_nonneg hprod]

theorem readMap_ok_implies_wellformed_witness :
    ([77, 49, 10, 45, 51, 10, 49, 32, 49, 10, 48, 32, 48, 10,
      97, 32, 98, 10, 0, 0, 0, 0, 0, 0, 0, 0, 0, 0, 0, 0] : List Nat).take 3 =
      [77, 49, 10] ∧
    ((([⟨0, 0, 0⟩] : List MapElement).length : Int) = 1 * 1) ∧
    (∀ e : MapError, (mapErrorMsg e).data.count '\n' = 1) :=
  readMap_ok_implies_wellformed
    [77, 49, 10, 45, 51, 10, 49, 32, 49, 10, 48, 32, 48, 10,
      97, 32, 98, 10, 0, 0, 0, 0, 0, 0, 0, 0, 0, 0, 0, 0]
    ⟨-3, 1, 1, 0, 0, [97], [98], [⟨0, 0, 0⟩]⟩
    rfl

/-- C9: for every TIFF accepted by ReadTiffImage whose photometric tag is
defined but is not min-is-black, the returned buffer is the bytewise
complement (`~b`, i.e. `255 - b` on a byte) of the decoded strip data; with
min-is-black the decoded bytes are returned unchanged. -/
theorem readTiffImage_photometric (t : TiffFile) (iw ih photo : Nat)
    (hbps : t.bitsPerSample = some 8)
    (hspp : t.samplesPerPixel = none ∨ t.samplesPerPixel = some 1)
    (hw : t.imageWidth = some iw) (hh : t.imageLength = some ih)
    (hp : t.photometric = some photo) :
    readTiffImage t =
      .ok ((if photo = PHOTOMETRIC_MINISBLACK then t.stripData
            else t.stripData.map flipByte), iw, ih) := by
  unfold readTiffImage
  rw [hbps, hw, hh, hp]
  have hsppc : ¬ (some (8 : Nat) ≠ some 8) := by simp
  simp only [ne_eq, not_true_eq_false, if_false]
  have hs : ¬ ((t.samplesPerPixel ≠ none) ∧ (t.samplesPerPixel ≠ some 1)) := by
    rcases hspp with h1 | h1 <;> simp [h1]
  simp only [hs, if_false]
  by_cases hph : photo = PHOTOMETRIC_MINISBLACK
  · simp [hph]
  · simp [hph]

theorem readTiffImage_photometric_witness :
    readTiffImage ⟨some 8, some 1, some 2, some 1, some 0, [0, 7, 255]⟩ =
      .ok ((if (0 : Nat) = PHOTOMETRIC_MINISBLACK then [0, 7, 255]
            else ([0, 7, 255] : List Nat).map flipByte), 2, 1) :=
  readTiffImage_photometric ⟨some 8, some 1, some 2, some 1, some 0, [0, 7, 255]⟩
    2 1 0 rfl (Or.inr rfl) rfl rfl rfl

theorem skipPnmSep_cons_ws {b : Nat} (t : List Nat)
    (h35 : b ≠ 35) (hsep : b = 32 ∨ b = 9 ∨ b = 10) :
    skipPnmSep false (b :: t) = skipPnmSep false t := by
  simp [skipPnmSep, h35, hsep]

theorem skipPnmSep_cons_sig {b : Nat} (t : List Nat)
    (h35 : b ≠ 35) (hsep : ¬ (b = 32 ∨ b = 9 ∨ b = 10)) :
    skipPnmSep false (b :: t) = (some b, t) := by
  simp [skipPnmSep, h35, hsep]

theorem digit_not_sep {b : Nat} (h : isDigit b = true) :
    b ≠ 35 ∧ ¬ (b = 32 ∨ b = 9 ∨ b = 10) := by
  simp only [isDigit, Bool.and_eq_true, decide_eq_true_eq] at h
  omega

theorem skipPnmSep_natDec (n : Nat) {d : Nat} {t : List Nat} (r : List Nat)
    (hdt : natDec n = d :: t) :
    skipPnmSep false (natDec n ++ r) = (some d, t ++ r) := by
  have hd : isDigit d = true := by
    have := natDec_digits n d (by rw [hdt]; simp)
    exact this
  obtain ⟨h35, hsep⟩ := digit_not_sep hd
  rw [hdt, List.cons_append, skipPnmSep_cons_sig _ h35 hsep]

theorem pnmDigits_not_digit (v : Nat) {b : Nat} (rest : List Nat)
    (hb : isDigit b = false) :
    pnmDigits v (some b) rest = (v, some b, rest) := by
  cases rest <;> simp [pnmDigits, hb]

theorem pnmDigits_run : ∀ (ds : List Nat) (acc d b : Nat) (r : List Nat),
    isDigit d = true → (∀ x ∈ ds, isDigit x = true) → isDigit b = false →
    pnmDigits acc (some d) (ds ++ b :: r) =
      (foldDigits acc (d :: ds), some b, r) := by
  intro ds
  induction ds with
  | nil =>
    intro acc d b r hd _ hb
    simp only [List.nil_append, pnmDigits, hd, if_true]
    rw [pnmDigits_not_digit _ _ hb]
    simp [foldDigits]
  | cons x xs ih =>
    intro acc d b r hd hds hb
    have hx : isDigit x = true := hds x (by simp)
    have hxs : ∀ y ∈ xs, isDigit y = true := fun y hy => hds y (by simp [hy])
    simp only [List.cons_append, pnmDigits, hd, if_true, List.append_eq]
    rw [ih (10 * acc + (d - 48)) x b r hx hxs hb]
    simp [foldDigits]

theorem pnmDigits_natDec (n : Nat) {d : Nat} {t : List Nat} {b : Nat}
    (r : List Nat) (hdt : natDec n = d :: t) (hb : isDigit b = false) :
    pnmDigits 0 (some d) (t ++ b :: r) = (n, some b, r) := by
  have hd : isDigit d = true := by
    have := natDec_digits n d (by rw [hdt]; simp)
    exact this
  have ht : ∀ x ∈ t, isDigit x = true := fun x hx =>
    natDec_digits n x (by rw [hdt]; simp [hx])
  rw [pnmDigits_run t 0 d b r hd ht hb]
  have : foldDigits 0 (d :: t) = n := by
    rw [← hdt, foldDigits_natDec]
  rw [this]

theorem readHeader_P4 (w h : Nat) (data : List Nat) :
    readHeader (80 :: 52 :: 10 :: (natDec w ++ 32 :: (natDec h ++ 10 :: data))) =
      some (52, w, h, none, data) := by
  obtain ⟨dw, tw, hw1, hw2⟩ := natDec_head_digit w
  obtain ⟨dh, th, hh1, hh2⟩ := natDec_head_digit h
  have s1 : skipPnmSep false
      (10 :: (natDec w ++ 32 :: (natDec h ++ 10 :: data))) =
      (some dw, tw ++ 32 :: (natDec h ++ 10 :: data)) := by
    rw [skipPnmSep_cons_ws _ (by decide) (by decide), skipPnmSep_natDec w _ hw1]
  have e1 : pnmDigits 0 (some dw) (tw ++ 32 :: (natDec h ++ 10 :: data)) =
      (w, some 32, natDec h ++ 10 :: data) :=
    pnmDigits_natDec w _ hw1 (by decide)
  have s2 : skipPnmSep false (32 :: (natDec h ++ 10 :: data)) =
      (some dh, th ++ 10 :: data) := by
    rw [skipPnmSep_cons_ws _ (by decide) (by decide), skipPnmSep_natDec h _ hh1]
  have e2 : pnmDigits 0 (some dh) (th ++ 10 :: data) = (h, some 10, data) :=
    pnmDigits_natDec h _ hh1 (by decide)
  simp only [readHeader, skipHashComments, skipPnmSepFrom, rdByteC]
  norm_num
  simp only [s1, e1, s2, e2, hw2, hh2, if_true]

theorem readHeader_P5_255 (w h : Nat) (data : List Nat) :
    readHeader (80 :: 53 :: 10 :: (natDec w ++ 32 :: (natDec h ++ 10 ::
      (50 :: 53 :: 53 :: 10 :: data)))) =
      some (53, w, h, some 255, data) := by
  obtain ⟨dw, tw, hw1, hw2⟩ := natDec_head_digit w
  obtain ⟨dh, th, hh1, hh2⟩ := natDec_head_digit h
  have s1 : skipPnmSep false
      (10 :: (natDec w ++ 32 :: (natDec h ++ 10 :: (50 :: 53 :: 53 :: 10 :: data)))) =
      (some dw, tw ++ 32 :: (natDec h ++ 10 :: (50 :: 53 :: 53 :: 10 :: data))) := by
    rw [skipPnmSep_cons_ws _ (by decide) (by decide), skipPnmSep_natDec w _ hw1]
  have e1 : pnmDigits 0 (some dw)
      (tw ++ 32 :: (natDec h ++ 10 :: (50 :: 53 :: 53 :: 10 :: data))) =
      (w, some 32, natDec h ++ 10 :: (50 :: 53 :: 53 :: 10 :: data)) :=
    pnmDigits_natDec w _ hw1 (by decide)
  have s2 : skipPnmSep false
      (32 :: (natDec h ++ 10 :: (50 :: 53 :: 53 :: 10 :: data))) =
      (some dh, th ++ 10 :: (50 :: 53 :: 53 :: 10 :: data)) := by
    rw [skipPnmSep_cons_ws _ (by decide) (by decide), skipPnmSep_natDec h _ hh1]
  have e2 : pnmDigits 0 (some dh) (th ++ 10 :: (50 :: 53 :: 53 :: 10 :: data)) =
      (h, some 10, 50 :: 53 :: 53 :: 10 :: data) :=
    pnmDigits_natDec h _ hh1 (by decide)
  have s3 : skipPnmSep false (10 :: (50 :: 53 :: 53 :: 10 :: data)) =
      (some 50, 53 :: 53 :: 10 :: data) := by
    rw [skipPnmSep_cons_ws _ (by decide) (by decide),
      skipPnmSep_cons_sig _ (by decide) (by decide)]
  have e3 : pnmDigits 0 (some 50) (53 :: 53 :: 10 :: data) =
      (255, some 10, data) := by
    have h1 : pnmDigits 0 (some 50) (53 :: 53 :: 10 :: data) =
        pnmDigits 255 (some 10) data := by
      simp [pnmDigits, isDigit]
    rw [h1, pnmDigits_not_digit 255 data (by decide)]
  have h50 : isDigit 50 = true := by decide
  simp only [readHeader, skipHashComments, skipPnmSepFrom, rdByteC]
  norm_num
  simp only [s1, e1, s2, e2, s3, e3, hw2, hh2, h50, if_true]

theorem suffixCI_append_eq_len (base ext target : List Nat)
    (hlen : ext.length = target.length) :
    suffixCI (base ++ ext) target = eqCI ext target := by
  have h1 : target.length ≤ (base ++ ext).length := by
    simp only [List.length_append]
    omega
  have h2 : (base ++ ext).length - target.length = base.length := by
    simp only [List.length_append]
    omega
  unfold suffixCI
  rw [h2, List.drop_left, decide_eq_true h1, Bool.true_and]

theorem exists_last_drop (l : List Nat) (h : l ≠ []) :
    ∃ x, l.drop (l.length - 1) = [x] := by
  induction l with
  | nil => exact absurd rfl h
  | cons a t ih =>
    cases ht : t with
    | nil =>
      subst ht
      exact ⟨a, rfl⟩
    | cons b t2 =>
      subst ht
      obtain ⟨x, hx⟩ := ih (by simp)
      refine ⟨x, ?_⟩
      have e1 : (a :: b :: t2).length - 1 = t2.length + 1 := by simp
      rw [e1, List.drop_succ_cons]
      have e2 : (b :: t2).length - 1 = t2.length := by simp
      rw [e2] at hx
      exact hx

theorem map_length_four {ext : List Nat} {t : List Nat}
    (heq : ext.map lowerByte = t) (ht : t.length = 4) : ext.length = 4 := by
  have := congrArg List.length heq
  simpa [ht] using this

theorem not_suffixCI_five (base ext : List Nat) (hb : base ≠ [])
    (hlen : ext.length = 4) (target : List Nat) (hlen5 : target.length = 5)
    (hne : ∀ x, eqCI (x :: ext) target = false) :
    suffixCI (base ++ ext) target = false := by
  obtain ⟨x, hx⟩ := exists_last_drop base hb
  have hbl : 1 ≤ base.length := by
    cases base with
    | nil => exact absurd rfl hb
    | cons a t => simp
  have h2 : (base ++ ext).length - target.length = base.length - 1 := by
    simp only [List.length_append, hlen, hlen5]
    omega
  have h3 : (base ++ ext).drop (base.length - 1) =
      x :: ext := by
    rw [List.drop_append_of_le_length (by omega), hx]
    rfl
  unfold suffixCI
  rw [h2, h3, hne x]
  simp

theorem lastIdxOf_append (xs ys : List Nat) (b : Nat) :
    lastIdxOf (xs ++ ys) b =
      match lastIdxOf ys b with
      | some i => some (xs.length + i)
      | none => lastIdxOf xs b := by
  induction xs with
  | nil =>
    rw [List.nil_append]
    cases hys : lastIdxOf ys b with
    | none => rfl
    | some i =>
      show some i = some (0 + i)
      exact congrArg some (by omega)
  | cons a t ih =>
    rw [List.cons_append]
    show (match lastIdxOf (t ++ ys) b with
          | some i => some (i + 1)
          | none => if a = b then some 0 else none) = _
    rw [ih]
    cases hys : lastIdxOf ys b with
    | none => rfl
    | some i =>
      show some (t.length + i + 1) = some (t.length + 1 + i)
      exact congrArg some (by omega)

theorem lastIdxOf_lt_length :
    ∀ (l : List Nat) (b i : Nat), lastIdxOf l b = some i → i < l.length := by
  intro l
  induction l with
  | nil => intro b i h; simp [lastIdxOf] at h
  | cons a t ih =>
    intro b i h
    have h2 : (match lastIdxOf t b with
        | some j => some (j + 1)
        | none => if a = b then some 0 else none) = some i := h
    cases ht : lastIdxOf t b with
    | some j =>
      rw [ht] at h2
      have h3 : j + 1 = i := Option.some.inj h2
      have h4 := ih b j ht
      simp only [List.length_cons]
      omega
    | none =>
      rw [ht] at h2
      have h3 : (if a = b then some 0 else none : Option Nat) = some i := h2
      split at h3
      · have h4 : 0 = i := Option.some.inj h3
        simp only [List.length_cons]
        omega
      · exact absurd h3 (by simp)

/-- C7: a pixel buffer written by WriteImage to a `.pgm` path (the file is
`"P5\n%d %d\n255\n"` followed by the `width*height` pixel bytes) and read back
with ReadPgmImage yields the same width, height, and a bit-exact pixel
buffer. -/
theorem writeImage_readPgmImage_roundtrip (e : ExtEncoders)
    (base ext pixels : List Nat) (w h : Nat) (cm : ImageCompression)
    (hb : base ≠ []) (hext : ext.map lowerByte = [46, 112, 103, 109])
    (hw : 0 < w) (hh : 0 < h) (hpix : pixels.length = w * h) :
    writeImage e (base ++ ext) pixels w h cm =
      some ([80, 53, 10] ++ natDec w ++ [32] ++ natDec h ++
        [10, 50, 53, 53, 10] ++ pixels) ∧
    readPgmImage ([80, 53, 10] ++ natDec w ++ [32] ++ natDec h ++
      [10, 50, 53, 53, 10] ++ pixels) = .ok (pixels, w, h) := by
  have hlen4 : ext.length = 4 := map_length_four hext (by decide)
  have hblen : 1 ≤ base.length := by
    cases base with
    | nil => exact absurd rfl hb
    | cons a t => simp
  constructor
  · have hlenf : (base ++ ext).length = base.length + 4 := by
      simp [List.length_append, hlen4]
    have hnotshort : ¬ ((base ++ ext).length < 5) := by omega
    have htif : suffixCI (base ++ ext) [46, 116, 105, 102] = false := by
      rw [suffixCI_append_eq_len base ext _ (by simp [hlen4])]
      unfold eqCI
      rw [hext]
      decide
    have htiff : suffixCI (base ++ ext) [46, 116, 105, 102, 102] = false := by
      refine not_suffixCI_five base ext hb hlen4 [46, 116, 105, 102, 102]
        (by decide) ?_
      intro x
      unfold eqCI
      rw [List.map_cons, hext]
      have htl : List.map lowerByte [46, 116, 105, 102, 102] =
          [46, 116, 105, 102, 102] := by decide
      rw [htl, List.cons_beq_cons]
      have h2 : (([46, 112, 103, 109] : List Nat) == [116, 105, 102, 102]) =
          false := by decide
      rw [h2, Bool.and_false]
    have hpgm : suffixCI (base ++ ext) [46, 112, 103, 109] = true := by
      rw [suffixCI_append_eq_len base ext _ (by simp [hlen4])]
      unfold eqCI
      rw [hext]
      decide
    have hwh : ¬ (w * h = 0) := by
      have := Nat.mul_pos hw hh
      omega
    unfold writeImage
    simp [hnotshort, htif, htiff, hpgm, hwh]
    omega
  · have hshape : [80, 53, 10] ++ natDec w ++ [32] ++ natDec h ++
        [10, 50, 53, 53, 10] ++ pixels =
        80 :: 53 :: 10 :: (natDec w ++ 32 :: (natDec h ++ 10 ::
          (50 :: 53 :: 53 :: 10 :: pixels))) := by
      simp [List.append_assoc]
    unfold readPgmImage
    rw [hshape, readHeader_P5_255]
    have hle : w * h ≤ pixels.length := le_of_eq hpix.symm
    simp only [hle, if_true]
    rw [← hpix, List.take_length]

theorem writeImage_readPgmImage_roundtrip_witness :
    writeImage ⟨fun _ _ _ _ => none, fun _ _ _ _ => none⟩
      ([97] ++ [46, 112, 103, 109]) [9, 8] 2 1 .UncompressedImage =
      some ([80, 53, 10] ++ natDec 2 ++ [32] ++ natDec 1 ++
        [10, 50, 53, 53, 10] ++ [9, 8]) ∧
    readPgmImage ([80, 53, 10] ++ natDec 2 ++ [32] ++ natDec 1 ++
      [10, 50, 53, 53, 10] ++ [9, 8]) = .ok ([9, 8], 2, 1) :=
  writeImage_readPgmImage_roundtrip ⟨fun _ _ _ _ => none, fun _ _ _ _ => none⟩
    [97] [46, 112, 103, 109] [9, 8] 2 1 .UncompressedImage
    (by decide) (by decide) (by decide) (by decide) (by decide)

/-- C8: WriteBitmap on a `.pbm` path emits the magic `"P4"`, the dimensions,
then exactly the `height*((width+7)/8)` raster bytes (row stride `(W+7)/8`,
the buffer's MSB-first bit layout copied verbatim); and ReadPbmBitmap on a
valid P4 file of those dimensions reads back exactly `height*((width+7)/8)`
bytes, failing when the file holds fewer. -/
theorem writeBitmap_pbm_format_and_read (gz : List Nat → List Nat)
    (base bitmap : List Nat) (w h : Nat) (cm : BitmapCompression)
    (hw : 0 < w) (hh : 0 < h)
    (hbm : bitmap.length = h * ((w + 7) / 8)) :
    writeBitmap gz (base ++ [46, 112, 98, 109]) bitmap w h cm =
      some ([80, 52, 10] ++ natDec w ++ [32] ++ natDec h ++ [10] ++ bitmap) ∧
    (∀ data : List Nat,
      readPbmBitmap ([80, 52, 10] ++ natDec w ++ [32] ++ natDec h ++ [10] ++
        data) =
        if h * ((w + 7) / 8) ≤ data.length then
          .ok (data.take (h * ((w + 7) / 8)), w, h)
        else .error .truncated) := by
  constructor
  · have hlenf : (base ++ [46, 112, 98, 109]).length = base.length + 4 := by
      simp
    have hne : ¬ ((base ++ [46, 112, 98, 109]).length < 1) := by omega
    have hdot : lastIdxOf (base ++ [46, 112, 98, 109]) 46 = some base.length := by
      rw [lastIdxOf_append]
      have : lastIdxOf [46, 112, 98, 109] 46 = some 0 := by decide
      simp [this]
    have hslash : lastIdxOf (base ++ [46, 112, 98, 109]) 47 = lastIdxOf base 47 := by
      rw [lastIdxOf_append]
      have : lastIdxOf [46, 112, 98, 109] 47 = none := by decide
      simp [this]
    have hcond : ¬ (lastIdxOf (base ++ [46, 112, 98, 109]) 46 = none ∨
        (∃ s ∈ lastIdxOf (base ++ [46, 112, 98, 109]) 47,
          ∃ d ∈ lastIdxOf (base ++ [46, 112, 98, 109]) 46, d < s)) := by
      rw [hdot, hslash]
      push_neg
      constructor
      · simp
      · intro s hs d hd
        cases hsl : lastIdxOf base 47 with
        | none => rw [hsl] at hs; simp at hs
        | some s0 =>
          rw [hsl] at hs
          simp only [Option.mem_def, Option.some.injEq] at hs hd
          subst hs
          subst hd
          have := lastIdxOf_lt_length base 47 s0 hsl
          omega
    have hpbm : suffixCI (base ++ [46, 112, 98, 109]) [46, 112, 98, 109] = true := by
      rw [suffixCI_append_eq_len base _ _ rfl]
      decide
    have hibpl : ¬ ((w + 7) / 8 * h = 0) := by
      have h8 : 1 ≤ (w + 7) / 8 := by omega
      have := Nat.mul_pos h8 hh
      omega
    have hge : 4 ≤ (base ++ [46, 112, 98, 109]).length := by
      rw [hlenf]; omega
    simp only [writeBitmap]
    rw [if_neg hne, if_neg hcond, if_pos ⟨hge, hpbm⟩, if_neg hibpl]
  · intro data
    have hshape : [80, 52, 10] ++ natDec w ++ [32] ++ natDec h ++ [10] ++ data =
        80 :: 52 :: 10 :: (natDec w ++ 32 :: (natDec h ++ 10 :: data)) := by
      simp [List.append_assoc]
    unfold readPbmBitmap
    rw [hshape, readHeader_P4]
    norm_num

theorem writeBitmap_pbm_format_and_read_witness :
    writeBitmap id ([109] ++ [46, 112, 98, 109]) [128, 64] 2 2
      .UncompressedBitmap =
      some ([80, 52, 10] ++ natDec 2 ++ [32] ++ natDec 2 ++ [10] ++ [128, 64]) ∧
    (∀ data : List Nat,
      readPbmBitmap ([80, 52, 10] ++ natDec 2 ++ [32] ++ natDec 2 ++ [10] ++
        data) =
        if 2 * ((2 + 7) / 8) ≤ data.length then
          .ok (data.take (2 * ((2 + 7) / 8)), 2, 2)
        else .error .truncated) :=
  writeBitmap_pbm_format_and_read id [109] [128, 64] 2 2 .UncompressedBitmap
    (by decide) (by decide) (by decide)

/-- C2 (code bug): ReadBmpImage's row stride.  The C expression
`rowsize = (int)(ceil((biBitCount*width/32)*4))` divides with *integer*
division before `ceil` can act, yielding `(width/4)*4` — the width rounded
*down* to a multiple of 4 — instead of the padded BMP stride
`width + (4 - width mod 4) mod 4` the spec states.  For width 5 the code's
stride is 4 (it seeks one byte backward after each 5-byte row read), so on
`bmpFile5x2` it returns a buffer that mixes padding and misaligned pixels
instead of the file's stored rows bottom-up. -/
theorem readBmpImage_stride_bug :
    bmpRowsize 5 = 4 ∧
    5 + (4 - 5 % 4) % 4 = 8 ∧
    readBmpImage bmpFile5x2 =
      .ok ([5, 251, 252, 253, 11, 1, 2, 3, 4, 5], 5, 2) ∧
    ([5, 251, 252, 253, 11, 1, 2, 3, 4, 5] : List Nat) ≠
      [11, 12, 13, 14, 15, 1, 2, 3, 4, 5] :=
  ⟨rfl, rfl, rfl, by decide⟩

/-- C3 (code bug): the claim that ReadImage succeeds on a `.ppm` filename
naming a valid binary PPM fails on the code, because ReadImage — unlike its
sibling ReadImageSize — has no `.ppm` dispatch branch.  Concretely: the file
`"a.ppm"` holds a valid P6 image that ReadPpmImage itself decodes and whose
size ReadImageSize reports, yet ReadImage falls into the extension-probing
branch, stats `a.ppm.tif` … `a.ppm.BMP`, finds nothing, and fails with the
"Cannot find image file" error. -/
theorem readImage_ppm_missing_dispatch :
    readPpmImage [80, 54, 10, 50, 32, 49, 10, 50, 53, 53, 10, 1, 2, 3, 4, 5, 6] =
      .ok ([1, 2], 2, 1) ∧
    readImageSize
      ⟨fun _ => none, fun _ => .error .decodeFail,
       fun _ => .error .decodeFail, fun _ => .error .decodeFail⟩
      [([97, 46, 112, 112, 109],
        [80, 54, 10, 50, 32, 49, 10, 50, 53, 53, 10, 1, 2, 3, 4, 5, 6])]
      0 [97, 46, 112, 112, 109] = (.ok (2, 1), 0) ∧
    readImage
      ⟨fun _ => none, fun _ => .error .decodeFail,
       fun _ => .error .decodeFail, fun _ => .error .decodeFail⟩
      [([97, 46, 112, 112, 109],
        [80, 54, 10, 50, 32, 49, 10, 50, 53, 53, 10, 1, 2, 3, 4, 5, 6])]
      0 [97, 46, 112, 112, 109] (-1) (-1) (-1) (-1) =
      (.error .cannotFind, 0) :=
  ⟨rfl, rfl, rfl⟩

theorem extractRegion_full (buf : List Nat) (iw ih : Nat) :
    extractRegion buf iw ih (-1) (-1) (-1) (-1) = .ok (buf, iw, ih) := by
  unfold extractRegion
  norm_num

theorem probeLoop_none {α : Type} (rd : Nat → List Nat → Except ImgError α)
    (fs : FS) (fn : List Nat) (j : Nat) :
    ∀ (fuel i : Nat),
      (∀ t < fuel, statFS fs (fn ++ extTable ((j + (i + t)) % 14)) = none) →
      probeLoop rd fs fn j i fuel = (.error .cannotFind, j) := by
  intro fuel
  induction fuel with
  | zero => intro i _; rfl
  | succ fuel ih =>
    intro i h
    have h0 : statFS fs (fn ++ extTable ((j + i) % 14)) = none := by
      have := h 0 (Nat.succ_pos fuel)
      simpa using this
    simp only [probeLoop]
    rw [h0]
    apply ih (i + 1)
    intro t ht
    have := h (t + 1) (by omega)
    have harith : i + (t + 1) = i + 1 + t := by omega
    rwa [harith] at this

theorem probeLoop_found {α : Type} (rd : Nat → List Nat → Except ImgError α)
    (fs : FS) (fn : List Nat) (j : Nat) :
    ∀ (fuel i i0 : Nat), i0 < fuel →
      (∀ t < i0, statFS fs (fn ++ extTable ((j + (i + t)) % 14)) = none) →
      ∀ content, statFS fs (fn ++ extTable ((j + (i + i0)) % 14)) = some content →
      probeLoop rd fs fn j i fuel =
        (match rd ((j + (i + i0)) % 14) (fn ++ extTable ((j + (i + i0)) % 14)) with
         | .ok a => (.ok a, (j + (i + i0)) % 14)
         | .error e => (.error e, j)) := by
  intro fuel
  induction fuel with
  | zero => intro i i0 h; omega
  | succ fuel ih =>
    intro i i0 hlt hnone content hsome
    cases i0 with
    | zero =>
      rw [Nat.add_zero] at hsome
      simp only [probeLoop]
      rw [hsome, Nat.add_zero]
      rfl
    | succ i0 =>
      have h0 : statFS fs (fn ++ extTable ((j + i) % 14)) = none := by
        have := hnone 0 (Nat.succ_pos i0)
        simpa using this
      have hnone2 : ∀ t, t < i0 →
          statFS fs (fn ++ extTable ((j + (i + 1 + t)) % 14)) = none := by
        intro t ht
        have := hnone (t + 1) (by omega)
        have harith2 : i + (t + 1) = i + 1 + t := by omega
        rwa [harith2] at this
      have harith : i + (i0 + 1) = i + 1 + i0 := by omega
      rw [harith] at hsome
      have h2 := ih (i + 1) i0 (by omega) hnone2 content hsome
      simp only [probeLoop]
      rw [h0]
      show probeLoop rd fs fn j (i + 1) fuel = _
      rw [h2, ← harith]

set_option maxRecDepth 8000 in
/-- C6: on a path ending in none of the recognized image extensions, both
ReadImage and ReadImageSize probe the 14 known extensions appended to the path
in cyclic order `(j+i) mod 14` starting from the cached index `j`; the first
candidate that exists on the filesystem is read with the reader for that
extension and, on success, its index becomes the new cached index; when no
candidate exists both fail with the "Cannot find image file" error, leaving
the cached index unchanged. -/
theorem readImage_probe_cyclic (d : ExtDecoders) (fs : FS) (j : Nat)
    (filename : List Nat)
    (hlen0 : ¬ (filename.length = 0))
    (htif : ¬ ((4 < filename.length ∧ suffixCI filename [46, 116, 105, 102] = true) ∨
      (5 < filename.length ∧ suffixCI filename [46, 116, 105, 102, 102] = true)))
    (hpgm : ¬ (4 < filename.length ∧ suffixCI filename [46, 112, 103, 109] = true))
    (hppm : ¬ (4 < filename.length ∧ suffixCI filename [46, 112, 112, 109] = true))
    (hjpg : ¬ ((4 < filename.length ∧ suffixCI filename [46, 106, 112, 103] = true) ∨
      (5 < filename.length ∧ suffixCI filename [46, 106, 112, 101, 103] = true)))
    (hbmp : ¬ (4 < filename.length ∧ suffixCI filename [46, 98, 109, 112] = true)) :
    ((∀ i, i < 14 → statFS fs (filename ++ extTable ((j + i) % 14)) = none) →
      readImageSize d fs j filename = (.error .cannotFind, j) ∧
      readImage d fs j filename (-1) (-1) (-1) (-1) = (.error .cannotFind, j)) ∧
    (∀ i0, i0 < 14 →
      (∀ i, i < i0 → statFS fs (filename ++ extTable ((j + i) % 14)) = none) →
      ∀ content,
        statFS fs (filename ++ extTable ((j + i0) % 14)) = some content →
        (readImageSize d fs j filename =
          (match sizeReaderFor d fs ((j + i0) % 14)
              (filename ++ extTable ((j + i0) % 14)) with
           | .ok a => (.ok a, (j + i0) % 14)
           | .error e => (.error e, j)) ∧
         readImage d fs j filename (-1) (-1) (-1) (-1) =
          (match imageReaderFor d fs ((j + i0) % 14)
              (filename ++ extTable ((j + i0) % 14)) with
           | .ok a => (.ok a, (j + i0) % 14)
           | .error e => (.error e, j)))) ∧
    cannotFindMsg.data.take 22 = "Cannot find image file".data := by
  have hsize : readImageSize d fs j filename =
      probeLoop (sizeReaderFor d fs) fs filename j 0 14 := by
    simp only [readImageSize]
    rw [if_neg hlen0, if_neg htif, if_neg hpgm, if_neg hppm, if_neg hjpg,
      if_neg hbmp]
  have hraw : readImage d fs j filename (-1) (-1) (-1) (-1) =
      (match probeLoop (imageReaderFor d fs) fs filename j 0 14 with
       | (.error e, j2) => (.error e, j2)
       | (.ok (buffer, iw, ih), j2) =>
         (extractRegion buffer iw ih (-1) (-1) (-1) (-1), j2)) := by
    simp only [readImage]
    rw [if_neg hlen0, if_neg htif, if_neg hpgm, if_neg hjpg, if_neg hbmp]
  refine ⟨?_, ?_, by decide⟩
  · intro hnone
    have hn : ∀ t, t < 14 →
        statFS fs (filename ++ extTable ((j + (0 + t)) % 14)) = none := by
      intro t ht
      simpa using hnone t ht
    constructor
    · rw [hsize, probeLoop_none (sizeReaderFor d fs) fs filename j 14 0 hn]
    · rw [hraw, probeLoop_none (imageReaderFor d fs) fs filename j 14 0 hn]
  · intro i0 hi0 hnone content hsome
    have hn : ∀ t, t < i0 →
        statFS fs (filename ++ extTable ((j + (0 + t)) % 14)) = none := by
      intro t ht
      simpa using hnone t ht
    have hs : statFS fs (filename ++ extTable ((j + (0 + i0)) % 14)) =
        some content := by
      simpa using hsome
    constructor
    · rw [hsize,
        probeLoop_found (sizeReaderFor d fs) fs filename j 14 0 i0 hi0 hn
          content hs]
      simp only [Nat.zero_add]
      cases sizeReaderFor d fs ((j + i0) % 14)
          (filename ++ extTable ((j + i0) % 14)) with
      | ok a => rfl
      | error e => rfl
    · rw [hraw,
        probeLoop_found (imageReaderFor d fs) fs filename j 14 0 i0 hi0 hn
          content hs]
      simp only [Nat.zero_add]
      cases hrd : imageReaderFor d fs ((j + i0) % 14)
          (filename ++ extTable ((j + i0) % 14)) with
      | error e => rfl
      | ok a =>
        obtain ⟨buf, iw, ih⟩ := a
        simp only [extractRegion_full]

theorem readImage_probe_cyclic_witness :
    readImageSize
      ⟨fun _ => none, fun _ => .error .decodeFail,
       fun _ => .error .decodeFail, fun _ => .error .decodeFail⟩
      [([105, 109, 103, 46, 112, 103, 109],
        [80, 53, 10, 49, 32, 49, 10, 50, 53, 53, 10, 7])]
      0 [105, 109, 103] = (.ok (1, 1), 4) ∧
    readImage
      ⟨fun _ => none, fun _ => .error .decodeFail,
       fun _ => .error .decodeFail, fun _ => .error .decodeFail⟩
      [([105, 109, 103, 46, 112, 103, 109],
        [80, 53, 10, 49, 32, 49, 10, 50, 53, 53, 10, 7])]
      0 [105, 109, 103] (-1) (-1) (-1) (-1) = (.ok ([7], 1, 1), 4) := by
  have h := readImage_probe_cyclic
    ⟨fun _ => none, fun _ => .error .decodeFail,
     fun _ => .error .decodeFail, fun _ => .error .decodeFail⟩
    [([105, 109, 103, 46, 112, 103, 109],
      [80, 53, 10, 49, 32, 49, 10, 50, 53, 53, 10, 7])]
    0 [105, 109, 103]
    (by decide) (by decide) (by decide) (by decide) (by decide) (by decide)
  have h2 := h.2.1 4 (by decide) (by decide)
    [80, 53, 10, 49, 32, 49, 10, 50, 53, 53, 10, 7] rfl
  exact ⟨h2.1.trans rfl, h2.2.trans rfl⟩

theorem replicate_getD_zero (n i : Nat) : (List.replicate n 0).getD i 0 = 0 := by
  rw [List.getD_eq_getElem?_getD, List.getElem?_replicate]
  split <;> rfl

theorem flatten_getD (rows : List (List Nat)) (w : Nat)
    (hw : ∀ row ∈ rows, row.length = w) (r c : Nat) (hc : c < w) :
    (rows.flatten).getD (r * w + c) 0 = (rows.getD r []).getD c 0 := by
  induction rows generalizing r with
  | nil =>
    simp [List.getD_eq_getElem?_getD]
  | cons row rest ih =>
    have hrow : row.length = w := hw row (by simp)
    have hrest : ∀ x ∈ rest, x.length = w := fun x hx => hw x (by simp [hx])
    cases r with
    | zero =>
      rw [List.flatten_cons]
      simp only [Nat.zero_mul, Nat.zero_add]
      rw [List.getD_eq_getElem?_getD, List.getElem?_append,
        if_pos (by omega : c < row.length), ← List.getD_eq_getElem?_getD]
      rfl
    | succ r2 =>
      rw [List.flatten_cons, List.getD_eq_getElem?_getD, List.getElem?_append,
        if_neg (by push_neg; calc row.length = w := hrow
                  _ ≤ (r2 + 1) * w + c := by
                    have : w ≤ (r2 + 1) * w := Nat.le_mul_of_pos_left w (by omega)
                    omega)]
      have hidx : (r2 + 1) * w + c - row.length = r2 * w + c := by
        rw [hrow]
        have : (r2 + 1) * w = r2 * w + w := by ring
        omega
      rw [hidx, ← List.getD_eq_getElem?_getD, ih hrest r2]
      rfl

theorem range_map_getD (n : Nat) (f : Nat → List Nat) (r : Nat) (hr : r < n) :
    ((List.range n).map f).getD r [] = f r := by
  rw [List.getD_eq_getElem?_getD, List.getElem?_map, List.getElem?_range hr]
  rfl

theorem regionRow_length (buffer : List Nat) (iw ih xminN wN : Nat)
    (xmaxI : Int) (yN : Nat)
    (hbuf : buffer.length = iw * ih)
    (hxm : (xminN : Int) ≤ xmaxI)
    (hwN : wN = (xmaxI - (xminN : Int) + 1).toNat) :
    (regionRow buffer iw ih xminN wN xmaxI ((yN : Nat) : Int)).length = wN := by
  unfold regionRow
  have hyt : ((yN : Nat) : Int).toNat = yN := Int.toNat_natCast yN
  rw [hyt]
  by_cases h1 : (ih : Int) ≤ ((yN : Nat) : Int) ∨ iw ≤ xminN
  · rw [if_pos h1, List.length_replicate]
  · rw [if_neg h1]
    push_neg at h1
    obtain ⟨hy, hx⟩ := h1
    have hyN : yN < ih := by exact_mod_cast hy
    have hfit : yN * iw + xminN + (iw - xminN) ≤ iw * ih := by
      have e1 : yN * iw + xminN + (iw - xminN) = yN * iw + iw := by omega
      have e2 : yN * iw + iw = (yN + 1) * iw := by ring
      rw [e1, e2, Nat.mul_comm iw ih]
      exact mul_le_mul_right' (by omega) iw
    by_cases h2 : xmaxI < (iw : Int)
    · rw [if_pos h2, List.length_take, List.length_drop, hbuf]
      have hwle : wN ≤ iw - xminN := by omega
      omega
    · rw [if_neg h2]
      by_cases h3 : wN < iw - xminN
      · exact absurd h3 (by omega)
      · rw [if_neg h3, List.length_append, List.length_take, List.length_drop,
          hbuf, List.length_replicate]
        omega

theorem regionRow_getD (buffer : List Nat) (iw ih xminN wN : Nat)
    (xmaxI : Int) (yN : Nat)
    (hbuf : buffer.length = iw * ih)
    (hxm : (xminN : Int) ≤ xmaxI)
    (hwN : wN = (xmaxI - (xminN : Int) + 1).toNat)
    (c : Nat) (hc : c < wN) :
    (regionRow buffer iw ih xminN wN xmaxI ((yN : Nat) : Int)).getD c 0 =
      if yN < ih ∧ xminN + c < iw then
        buffer.getD (yN * iw + (xminN + c)) 0
      else 0 := by
  unfold regionRow
  have hyt : ((yN : Nat) : Int).toNat = yN := Int.toNat_natCast yN
  rw [hyt]
  by_cases h1 : (ih : Int) ≤ ((yN : Nat) : Int) ∨ iw ≤ xminN
  · rw [if_pos h1, replicate_getD_zero]
    have hcond : ¬ (yN < ih ∧ xminN + c < iw) := by
      rcases h1 with h | h
      · have : ih ≤ yN := by exact_mod_cast h
        omega
      · omega
    rw [if_neg hcond]
  · rw [if_neg h1]
    push_neg at h1
    obtain ⟨hy, hx⟩ := h1
    have hyN : yN < ih := by exact_mod_cast hy
    have hfit : yN * iw + xminN + (iw - xminN) ≤ iw * ih := by
      have e1 : yN * iw + xminN + (iw - xminN) = yN * iw + iw := by omega
      have e2 : yN * iw + iw = (yN + 1) * iw := by ring
      rw [e1, e2, Nat.mul_comm iw ih]
      exact mul_le_mul_right' (by omega) iw
    by_cases h2 : xmaxI < (iw : Int)
    · rw [if_pos h2]
      have hcx : xminN + c < iw := by omega
      rw [if_pos ⟨hyN, hcx⟩]
      rw [List.getD_eq_getElem?_getD, List.getElem?_take, if_pos hc,
        List.getElem?_drop, ← List.getD_eq_getElem?_getD]
      have : yN * iw + xminN + c = yN * iw + (xminN + c) := by omega
      rw [this]
    · rw [if_neg h2]
      by_cases h3 : wN < iw - xminN
      · exact absurd h3 (by omega)
      · rw [if_neg h3]
        have htklen : ((buffer.drop (yN * iw + xminN)).take (iw - xminN)).length =
            iw - xminN := by
          rw [List.length_take, List.length_drop, hbuf]
          omega
        by_cases h4 : c < iw - xminN
        · have hcx : xminN + c < iw := by omega
          rw [if_pos ⟨hyN, hcx⟩]
          rw [List.getD_eq_getElem?_getD, List.getElem?_append,
            if_pos (by rw [htklen]; exact h4), List.getElem?_take, if_pos h4,
            List.getElem?_drop, ← List.getD_eq_getElem?_getD]
          have : yN * iw + xminN + c = yN * iw + (xminN + c) := by omega
          rw [this]
        · have hcx : ¬ (yN < ih ∧ xminN + c < iw) := by omega
          rw [if_neg hcx]
          rw [List.getD_eq_getElem?_getD, List.getElem?_append,
            if_neg (by rw [htklen]; exact h4), List.getElem?_replicate]
          split <;> rfl

/-- C10: for every decoded image buffer and requested subregion with
nonnegative ordered bounds, ReadImage's extraction returns a buffer of width
`maxX-minX+1` and height `maxY-minY+1` in which each pixel whose source
coordinate lies inside the source image equals the source pixel, and each
pixel whose source row or column falls outside the source image is 0, the
masked-pixel sentinel. -/
theorem extractRegion_spec (buffer : List Nat) (iw ih : Nat)
    (minX maxX minY maxY : Int)
    (hbuf : buffer.length = iw * ih)
    (h0x : 0 ≤ minX) (hxx : minX ≤ maxX) (h0y : 0 ≤ minY) (hyy : minY ≤ maxY) :
    ∃ out, extractRegion buffer iw ih minX maxX minY maxY =
        .ok (out, (maxX - minX + 1).toNat, (maxY - minY + 1).toNat) ∧
      ∀ r c : Nat, r < (maxY - minY + 1).toNat → c < (maxX - minX + 1).toNat →
        out.getD (r * (maxX - minX + 1).toNat + c) 0 =
          if minY.toNat + r < ih ∧ minX.toNat + c < iw then
            buffer.getD ((minY.toNat + r) * iw + (minX.toNat + c)) 0
          else 0 := by
  have hx1 : ((minX.toNat : Nat) : Int) = minX := Int.toNat_of_nonneg h0x
  have hy1 : ((minY.toNat : Nat) : Int) = minY := Int.toNat_of_nonneg h0y
  by_cases hg : minX ≤ 0 ∧ (maxX < 0 ∨ maxX = (iw : Int) - 1) ∧
      minY ≤ 0 ∧ (maxY < 0 ∨ maxY = (ih : Int) - 1)
  · obtain ⟨hg1, hg2, hg3, hg4⟩ := hg
    have hminX : minX = 0 := le_antisymm hg1 h0x
    have hminY : minY = 0 := le_antisymm hg3 h0y
    have hmaxX : maxX = (iw : Int) - 1 := by
      rcases hg2 with h | h
      · omega
      · exact h
    have hmaxY : maxY = (ih : Int) - 1 := by
      rcases hg4 with h | h
      · omega
      · exact h
    have e1 : (maxX - minX + 1).toNat = iw := by omega
    have e2 : (maxY - minY + 1).toNat = ih := by omega
    refine ⟨buffer, ?_, ?_⟩
    · unfold extractRegion
      rw [if_pos ⟨hg1, hg2, hg3, hg4⟩, e1, e2]
    · intro r c hr hc
      rw [e1] at hc
      rw [e2] at hr
      have ecl : minX.toNat + c = c := by omega
      have erw : minY.toNat + r = r := by omega
      rw [e1, ecl, erw, if_pos ⟨hr, hc⟩]
  · have hmx0 : ¬ (maxX < 0) := by omega
    have hmy0 : ¬ (maxY < 0) := by omega
    have hwpos : (0 : Int) < maxX - minX + 1 := by omega
    have hhpos : (0 : Int) < maxY - minY + 1 := by omega
    have hwh : ¬ ((maxX - minX + 1) * (maxY - minY + 1) < 0) :=
      not_lt.mpr (le_of_lt (mul_pos hwpos hhpos))
    have hrowlen : ∀ row ∈ (List.range (maxY - minY + 1).toNat).map
        (fun r => regionRow buffer iw ih minX.toNat (maxX - minX + 1).toNat
          maxX ((minY.toNat + r : Nat) : Int)),
        row.length = (maxX - minX + 1).toNat := by
      intro row hrow
      obtain ⟨r2, _, hfr⟩ := List.mem_map.1 hrow
      rw [← hfr]
      exact regionRow_length buffer iw ih minX.toNat _ maxX (minY.toNat + r2)
        hbuf (by omega) (by rw [hx1])
    refine ⟨((List.range (maxY - minY + 1).toNat).map
        (fun r => regionRow buffer iw ih minX.toNat (maxX - minX + 1).toNat
          maxX ((minY.toNat + r : Nat) : Int))).flatten, ?_, ?_⟩
    · simp only [extractRegion]
      rw [if_neg hg, if_neg hmx0, if_neg hmy0, hx1, hy1, if_neg hwh]
    · intro r c hr hc
      rw [flatten_getD _ (maxX - minX + 1).toNat hrowlen r c hc,
        range_map_getD _ _ r hr,
        regionRow_getD buffer iw ih minX.toNat (maxX - minX + 1).toNat maxX
          (minY.toNat + r) hbuf (by omega) (by rw [hx1]) c hc]

theorem extractRegion_spec_witness :
    ∃ out, extractRegion [10, 11, 12, 13, 14, 15] 3 2 1 3 1 2 =
        .ok (out, ((3 : Int) - 1 + 1).toNat, ((2 : Int) - 1 + 1).toNat) ∧
      ∀ r c : Nat, r < ((2 : Int) - 1 + 1).toNat → c < ((3 : Int) - 1 + 1).toNat →
        out.getD (r * ((3 : Int) - 1 + 1).toNat + c) 0 =
          if (1 : Int).toNat + r < 2 ∧ (1 : Int).toNat + c < 3 then
            ([10, 11, 12, 13, 14, 15] : List Nat).getD
              (((1 : Int).toNat + r) * 3 + ((1 : Int).toNat + c)) 0
          else 0 :=
  extractRegion_spec [10, 11, 12, 13, 14, 15] 3 2 1 3 1 2
    (by decide) (by decide) (by decide) (by decide) (by decide)

end AlignTK
